import Mathlib

/-!
Shallow embedding of the core of the maze-solver repository
(src/maze_solver/dynamic_prog.py and src/maze_solver/q_learning.py).

Modelling conventions:
* Python floats are modelled as exact rationals (ℚ).
* numpy 1-D arrays are `List ℚ`, 2-D arrays are `List (List ℚ)`;
  `ndarray.flatten()` of a 2-D array is `List.flatten` (it returns a fresh copy,
  which the `QState` record below makes explicit).
* Python ints are `Int`; array reads and writes at integer indices use the
  executable `getI`/`setI` below, which agree with numpy indexing on the
  in-range indices at which the sources use them.
* `np.linalg.norm (x) <= d` (with `0 <= d`) is represented by comparing the
  sum of squares with `d ^ 2`, which is equivalent and keeps the development
  executable.
* the ambient numpy random generator is an explicit pair of streams:
  `rands : Nat → ℚ` for `np.random.uniform()` draws and `choices : Nat → Nat`
  for `np.random.choice` (the drawn index into the offered list, reduced mod
  its length).
* unbounded `while` loops receive an explicit fuel argument and return
  `Option`; `none` means the loop was still running when the fuel ran out.
-/

/-- Rational model of the float literal `-1e24` written by
`q_learning.generate_q` into masked-invalid Q entries. -/
def sentinel : ℚ := -(10 ^ 24)

/-- Model of `np.max` over a 1-D array (`0` on the empty list; every use in
the sources is on a non-empty array). -/
def maxList : List ℚ → ℚ
  | [] => 0
  | x :: xs => xs.foldl max x

/-- Model of `np.argmax`: index of the first occurrence of the maximum
(`0` on the empty or singleton list). -/
def argmaxIdx : List ℚ → Nat
  | [] => 0
  | [_] => 0
  | x :: xs => if maxList xs ≤ x then 0 else argmaxIdx xs + 1

/-- Reading `l[i]` at an integer index (default `d` off the right end or at a
negative index; every use in the development is proved in range, where this
agrees with numpy indexing). -/
def getI {α : Type} (d : α) : List α → Int → α
  | [], _ => d
  | x :: xs, i => if i = 0 then x else getI d xs (i - 1)

/-- Writing `l[i] = v` at an integer index (no-op off the right end or at a
negative index; every use in the development is proved in range). -/
def setI {α : Type} : List α → Int → α → List α
  | [], _, _ => []
  | x :: xs, i, v => if i = 0 then v :: xs else x :: setI xs (i - 1) v

/-- Reading `l[i]` for an integer index; all uses are proved in range. -/
def idxQ (l : List ℚ) (i : Int) : ℚ := getI 0 l i

/-- Models the in-place update `l[i] += x` at an integer index. -/
def addAt (l : List ℚ) (i : Int) (x : ℚ) : List ℚ := setI l i (getI 0 l i + x)

/-- Executable integer square root, modelling `int(np.sqrt(n))` (exact for
the perfect squares the sources apply it to). -/
def int_sqrt (n : Nat) : Nat := Nat.findGreatest (fun k => k * k ≤ n) n

/-- Sum of squared componentwise differences: `np.linalg.norm(a - b) ≤ d`
(for `0 ≤ d`) is `sumSqDiff a b ≤ d ^ 2`. -/
def sumSqDiff (a b : List ℚ) : ℚ := (List.zipWith (fun x y => (x - y) ^ 2) a b).sum

/-- Model of `np.max(np.abs(A - B))` for two same-shaped 2-D arrays. -/
def maxAbsDiff (A B : List (List ℚ)) : ℚ :=
  maxList (List.flatten (List.zipWith (fun ra rb => List.zipWith (fun a b => |a - b|) ra rb) A B))

/-! ## dynamic_prog.py -/

/-- Clamped grid topology, `dynamic_prog.get_possible_actions_for_state`:
the states reached from `s` by up/down/left/right, an out-of-bounds move
resolving to `s` itself. -/
def get_possible_actions_for_state (s grid_size : Int) : List Int :=
  let up0 := s - grid_size
  let down0 := s + grid_size
  let left0 := s - 1
  let right0 := s + 1
  let up := if up0 < 0 then s else up0
  let down := if grid_size ^ 2 ≤ down0 then s else down0
  let left := if s % grid_size = 0 then s else left0
  let right := if s % grid_size = grid_size - 1 then s else right0
  [up, down, left, right]

/-- Score `rewards[a] + GAMMA * V[a]` given to a candidate next-state `a`
(one component of `sum_values = rs_for_as + GAMMA*vs_for_as`). -/
def stateScore (V rewards : List ℚ) (GAMMA : ℚ) (a : Int) : ℚ :=
  idxQ rewards a + GAMMA * idxQ V a

/-- Sublist of the candidates whose score equals `m`, in order and with
multiplicity (models indexing by `np.where(sum_values == m)[0]`). -/
def scoreFilter (V rewards : List ℚ) (GAMMA m : ℚ) : List Int → List Int
  | [] => []
  | a :: rest =>
      if stateScore V rewards GAMMA a = m then a :: scoreFilter V rewards GAMMA m rest
      else scoreFilter V rewards GAMMA m rest

/-- The candidate next-states of `state` achieving the maximal score: the
`best_as = possible_actions[np.where(sum_values == np.max(sum_values))[0]]`
of `dynamic_prog.get_pi_for_state` (kept with multiplicity, in order). -/
def bestNextStates (state : Int) (V rewards : List ℚ) (GAMMA : ℚ) : List Int :=
  let grid_size : Int := (int_sqrt V.length : Int)
  let possible_actions := get_possible_actions_for_state state grid_size
  let sum_values := possible_actions.map (stateScore V rewards GAMMA)
  scoreFilter V rewards GAMMA (maxList sum_values) possible_actions

/-- Model of `dynamic_prog.get_pi_for_state` (`rewards` is already the
flattened vector, as produced by every caller). -/
def get_pi_for_state (state : Int) (V rewards : List ℚ) (GAMMA : ℚ)
    (choose_one : Bool) : List ℚ :=
  let grid_size : Int := (int_sqrt V.length : Int)
  let possible_actions := get_possible_actions_for_state state grid_size
  let sum_values := possible_actions.map (stateScore V rewards GAMMA)
  let pi_state := List.replicate V.length (0 : ℚ)
  if choose_one = false then
    let best_as := bestNextStates state V rewards GAMMA
    best_as.foldl (fun p a => addAt p a (1 / (best_as.length : ℚ))) pi_state
  else
    setI pi_state (possible_actions.getD (argmaxIdx sum_values) 0) 1

/-- Model of `dynamic_prog.get_policy_from_V`: a zero matrix whose rows
`0 .. len(V)-2` are filled by `get_pi_for_state`. -/
def get_policy_from_V (V rewards : List ℚ) (GAMMA : ℚ) (choose_one : Bool) :
    List (List ℚ) :=
  (List.range (V.length - 1)).foldl
    (fun pi state => pi.set state (get_pi_for_state (state : Int) V rewards GAMMA choose_one))
    (List.replicate V.length (List.replicate V.length 0))

/-- One value update `np.sum(pi[i] * (rewards + GAMMA * v))` from
`dynamic_prog.policy_evaluation`. -/
def evalV (p rewards : List ℚ) (GAMMA : ℚ) (v : List ℚ) : ℚ :=
  (List.zipWith (fun pij x => pij * x)
    p (List.zipWith (fun rj vj => rj + GAMMA * vj) rewards v)).sum

/-- Inner `for` loop of `policy_evaluation` over the listed indices.  The
pair carries `(v, V)`: the variable `v` is reassigned to a copy of the
current `V` immediately before each single-entry update, exactly as in the
source (`v = deepcopy(V)` stands inside the `for` loop). -/
def sweep_go (pi : List (List ℚ)) (rewards : List ℚ) (GAMMA : ℚ) :
    List Nat → List ℚ × List ℚ → List ℚ × List ℚ
  | [], p => p
  | i :: rest, (_, V) =>
      sweep_go pi rewards GAMMA rest (V, V.set i (evalV (pi.getD i []) rewards GAMMA V))

/-- One sweep `for i in range(0, len(V)-1)` of `policy_evaluation`,
returning the final values of the variables `(v, V)`. -/
def sweep (pi : List (List ℚ)) (rewards : List ℚ) (GAMMA : ℚ) (V : List ℚ) :
    List ℚ × List ℚ :=
  sweep_go pi rewards GAMMA (List.range (V.length - 1)) (V, V)

/-- Model of `dynamic_prog.policy_evaluation`.  The source initialises
`diff = DELTA + 1.0 > DELTA`, so the sweep always runs at least once and the
exit test `diff = np.linalg.norm(v - V) <= DELTA` is evaluated after each
sweep; the norm comparison is represented by `sumSqDiff ≤ DELTA ^ 2`. -/
def policy_evaluation (pi : List (List ℚ)) (rewards : List ℚ) (GAMMA DELTA : ℚ) :
    Nat → List ℚ → Option (List ℚ)
  | 0, _ => none
  | fuel + 1, V =>
      let p := sweep pi rewards GAMMA V
      if sumSqDiff p.1 p.2 ≤ DELTA ^ 2 then some p.2
      else policy_evaluation pi rewards GAMMA DELTA fuel p.2

/-! ## q_learning.py -/

/-- Masked grid topology, `q_learning.get_possible_actions`: the codes
(`0`=up, `1`=down, `2`=left, `3`=right) of the moves that stay on the grid. -/
def get_possible_actions (s grid_size : Int) : List Nat :=
  (if grid_size ≤ s then [0] else []) ++
  (if s < grid_size ^ 2 - grid_size then [1] else []) ++
  (if s % grid_size ≠ 0 then [2] else []) ++
  (if s % grid_size ≠ grid_size - 1 then [3] else [])

/-- Model of `q_learning.get_impossible_actions`: the action codes removed
by the masked topology. -/
def get_impossible_actions (s grid_size : Int) : List Nat :=
  (if s < grid_size then [0] else []) ++
  (if grid_size ^ 2 - grid_size ≤ s then [1] else []) ++
  (if s % grid_size = 0 then [2] else []) ++
  (if s % grid_size = grid_size - 1 then [3] else [])

/-- Model of `q_learning.generate_q`: a `grid_size² × 4` table of zeros whose
masked-invalid entries are overwritten with the sentinel `-1e24`. -/
def generate_q (maze : List (List ℚ)) : List (List ℚ) :=
  let grid_size := maze.length
  (List.range (grid_size ^ 2)).foldl
    (fun q i =>
      q.set i ((get_impossible_actions (i : Int) (grid_size : Int)).foldl
        (fun row a => row.set a sentinel) (q.getD i [])))
    (List.replicate (grid_size ^ 2) (List.replicate 4 0))

/-- Model of `q_learning.take_action`: with `rand = np.random.uniform()`, if
`rand > EPSILON` return `np.argmax(Q[state])`, otherwise return the
`np.random.choice` pick (modelled by the drawn index `choice`, reduced mod
the length of the offered list) among the masked valid actions. -/
def take_action (rand : ℚ) (choice : Nat) (state : Int) (Q : List (List ℚ))
    (EPSILON : ℚ) : Nat :=
  if EPSILON < rand then argmaxIdx (getI [] Q state)
  else
    let grid_size : Int := (int_sqrt Q.length : Int)
    let poss_actions := get_possible_actions state grid_size
    poss_actions.getD (choice % poss_actions.length) 0

/-- Model of `q_learning.get_next_state` (for `action = 3` and any other
value the source falls through to its final branch `state + 1`; only action
codes `0..3` ever reach it). -/
def get_next_state (state : Int) (action : Nat) (grid_size : Int) : Int :=
  if action = 0 then state - grid_size
  else if action = 1 then state + grid_size
  else if action = 2 then state - 1
  else state + 1

/-- The three numpy arrays alive inside `q_learning.solve`: the caller's
`maze`, the flattened rewards copy `r` (`.flatten()` returns a fresh array,
so the in-place remap writes `r`, never `maze`), and the Q-table. -/
structure QState where
  maze : List (List ℚ)
  r : List ℚ
  Q : List (List ℚ)
deriving Repr, DecidableEq

/-- The in-place remap `r[r == -100] = -1000` of `q_learning.solve`. -/
def remap (r : List ℚ) : List ℚ :=
  r.map (fun x => if x = -100 then -1000 else x)

/-- The TD(0) update line of `q_learning.solve`:
`Q[state,action] += ALPHA*(r[next_state] + GAMMA*np.max(Q[next_state]) - Q[state,action])`. -/
def td_update (Q : List (List ℚ)) (r : List ℚ) (ALPHA GAMMA : ℚ)
    (state : Int) (action : Nat) (next_state : Int) : List (List ℚ) :=
  let row := getI [] Q state
  let old := row.getD action 0
  setI Q state
    (row.set action
      (old + ALPHA * (getI 0 r next_state + GAMMA * maxList (getI [] Q next_state) - old)))

/-- Inner episode loop `while state != grid_size**2 - 1` of
`q_learning.solve`.  `k` indexes the random streams; the returned trace
lists every `(state, action)` pair the loop selected (most recent first). -/
def episode_go (GAMMA ALPHA EPSILON : ℚ) (grid_size : Int)
    (rands : Nat → ℚ) (choices : Nat → Nat) :
    Nat → Nat → Int → QState → List (Int × Nat) →
    Option (QState × List (Int × Nat) × Nat)
  | fuel, k, state, st, tr =>
    if state = grid_size ^ 2 - 1 then some (st, tr, k)
    else
      match fuel with
      | 0 => none
      | fuel + 1 =>
          let action := take_action (rands k) (choices k) state st.Q EPSILON
          let next_state := get_next_state state action grid_size
          episode_go GAMMA ALPHA EPSILON grid_size rands choices fuel (k + 1) next_state
            { st with Q := td_update st.Q st.r ALPHA GAMMA state action next_state }
            ((state, action) :: tr)

/-- Outer loop `while np.max(np.abs(Q - Q_old)) > DELTA` of
`q_learning.solve`: each pass copies `Q` into `Q_old` and runs one episode
from state `0`.  `N` bounds the number of episodes and `F` the steps per
episode. -/
def solve_go (GAMMA ALPHA EPSILON DELTA : ℚ) (grid_size : Int)
    (rands : Nat → ℚ) (choices : Nat → Nat) :
    Nat → Nat → Nat → List (List ℚ) → QState → List (Int × Nat) →
    Option (QState × List (Int × Nat))
  | N, F, k, Q_old, st, tr =>
    if maxAbsDiff st.Q Q_old ≤ DELTA then some (st, tr)
    else
      match N with
      | 0 => none
      | N + 1 =>
          match episode_go GAMMA ALPHA EPSILON grid_size rands choices F k 0 st [] with
          | none => none
          | some (st2, tr2, k2) =>
              solve_go GAMMA ALPHA EPSILON DELTA grid_size rands choices N F k2 st.Q st2 (tr ++ tr2)

/-- Model of `q_learning.solve`: flatten the maze into a fresh rewards copy,
remap `-100 → -1000` in it, build the Q-table, and run episodes until the
Q-table moves by at most `DELTA` (`Q_old` starts as `np.ones_like(Q)`). -/
def solve (maze : List (List ℚ)) (GAMMA ALPHA EPSILON DELTA : ℚ)
    (rands : Nat → ℚ) (choices : Nat → Nat) (N F : Nat) :
    Option (QState × List (Int × Nat)) :=
  let st : QState := { maze := maze, r := remap maze.flatten, Q := generate_q maze }
  solve_go GAMMA ALPHA EPSILON DELTA (maze.length : Int) rands choices N F 0
    (List.replicate (maze.length ^ 2) (List.replicate 4 1)) st []

/-- Loop of `q_learning.get_route`: walk with `take_action (…) Q 0` until the
state equals `len(maze.flatten()) - 1`, recording the visited states and, for
the trace, each `(state, action)` selection. -/
def get_route_go (Q : List (List ℚ)) (maze : List (List ℚ))
    (rands : Nat → ℚ) (choices : Nat → Nat) :
    Nat → Nat → Int → List Int → List (Int × Nat) →
    Option (List Int × List (Int × Nat))
  | fuel, k, state, seq, tr =>
    if state = (maze.flatten.length : Int) - 1 then some (seq.reverse, tr.reverse)
    else
      match fuel with
      | 0 => none
      | fuel + 1 =>
          let action := take_action (rands k) (choices k) state Q 0
          let state2 := get_next_state state action (maze.length : Int)
          get_route_go Q maze rands choices fuel (k + 1) state2 (state2 :: seq)
            ((state, action) :: tr)

/-- Model of `q_learning.get_route`: start at `start_x + grid_size*start_y`
and follow `take_action` with `EPSILON = 0` to the terminal state.  Returns
the visited-state sequence and the `(state, action)` selection trace. -/
def get_route (Q : List (List ℚ)) (maze : List (List ℚ)) (start_x start_y : Int)
    (rands : Nat → ℚ) (choices : Nat → Nat) (fuel : Nat) :
    Option (List Int × List (Int × Nat)) :=
  let grid_size : Int := (maze.length : Int)
  let state := start_x + grid_size * start_y
  get_route_go Q maze rands choices fuel 0 state [state] []

/-! ## Shared lemmas about the helper functions -/

lemma length_setI {α : Type} (l : List α) (i : Int) (v : α) :
    (setI l i v).length = l.length := by
  induction l generalizing i with
  | nil => simp [setI]
  | cons x xs ih =>
      simp only [setI]
      split
      · simp
      · simpa using ih (i - 1)

lemma getI_coe {α : Type} (d : α) (l : List α) (n : Nat) :
    getI d l (n : Int) = l.getD n d := by
  induction l generalizing n with
  | nil => simp [getI]
  | cons x xs ih =>
      cases n with
      | zero => simp [getI]
      | succ m =>
          have h1 : ((m + 1 : Nat) : Int) ≠ 0 := by omega
          have h2 : ((m + 1 : Nat) : Int) - 1 = (m : Int) := by omega
          simp only [getI, if_neg h1, h2, ih]
          rfl

lemma setI_coe {α : Type} (l : List α) (n : Nat) (v : α) :
    setI l (n : Int) v = l.set n v := by
  induction l generalizing n with
  | nil => simp [setI]
  | cons x xs ih =>
      cases n with
      | zero => simp [setI]
      | succ m =>
          have h1 : ((m + 1 : Nat) : Int) ≠ 0 := by omega
          have h2 : ((m + 1 : Nat) : Int) - 1 = (m : Int) := by omega
          simp only [setI, if_neg h1, h2, ih]
          rfl

lemma getI_neg {α : Type} (d : α) (l : List α) (i : Int) (h : i < 0) :
    getI d l i = d := by
  induction l generalizing i with
  | nil => simp [getI]
  | cons x xs ih =>
      have h1 : i ≠ 0 := by omega
      simp only [getI, if_neg h1]
      exact ih (i - 1) (by omega)

lemma getI_setI_self {α : Type} (d : α) (l : List α) (i : Int) (v : α)
    (h0 : 0 ≤ i) (h1 : i < l.length) : getI d (setI l i v) i = v := by
  induction l generalizing i with
  | nil => simp at h1; omega
  | cons x xs ih =>
      by_cases hz : i = 0
      · subst hz; simp [setI, getI]
      · simp only [setI, getI, if_neg hz]
        exact ih (i - 1) (by omega) (by simp at h1; omega)

lemma getI_setI_ne {α : Type} (d : α) (l : List α) (i j : Int) (v : α)
    (h : i ≠ j) : getI d (setI l i v) j = getI d l j := by
  induction l generalizing i j with
  | nil => simp [setI]
  | cons x xs ih =>
      by_cases hz : i = 0
      · subst hz
        have hj : j ≠ 0 := fun hh => h hh.symm
        simp [setI, getI, if_neg hj]
      · simp only [setI, if_neg hz, getI]
        by_cases hj : j = 0
        · simp [hj]
        · simp only [if_neg hj]
          exact ih (i - 1) (j - 1) (by omega)

lemma getD_set_self {α : Type} (l : List α) (i : Nat) (v d : α) (h : i < l.length) :
    (l.set i v).getD i d = v := by
  simp [List.getD_eq_getElem?_getD, List.getElem?_set_self h]

lemma getD_set_ne {α : Type} (l : List α) (i j : Nat) (v d : α) (h : i ≠ j) :
    (l.set i v).getD j d = l.getD j d := by
  simp [List.getD_eq_getElem?_getD, List.getElem?_set_ne h]

lemma sum_setI (l : List ℚ) (i : Int) (v : ℚ) (h0 : 0 ≤ i) (h1 : i < l.length) :
    (setI l i v).sum = l.sum - getI 0 l i + v := by
  induction l generalizing i with
  | nil => simp at h1; omega
  | cons x xs ih =>
      by_cases hz : i = 0
      · subst hz; simp [setI, getI]; ring
      · simp only [setI, if_neg hz, getI, List.sum_cons]
        rw [ih (i - 1) (by omega) (by simp at h1; omega)]
        ring

lemma sum_addAt (l : List ℚ) (i : Int) (x : ℚ) (h0 : 0 ≤ i) (h1 : i < l.length) :
    (addAt l i x).sum = l.sum + x := by
  rw [addAt, sum_setI l i _ h0 h1]; ring

lemma getI_addAt_self (l : List ℚ) (i : Int) (x : ℚ) (h0 : 0 ≤ i) (h1 : i < l.length) :
    getI 0 (addAt l i x) i = getI 0 l i + x := by
  rw [addAt, getI_setI_self _ _ _ _ h0 h1]

lemma getI_addAt_ne (l : List ℚ) (i j : Int) (x : ℚ) (h : i ≠ j) :
    getI 0 (addAt l i x) j = getI 0 l j := by
  rw [addAt, getI_setI_ne _ _ _ _ _ h]

lemma length_addAt (l : List ℚ) (i : Int) (x : ℚ) : (addAt l i x).length = l.length :=
  length_setI l i _

lemma foldl_max_assoc (a b : ℚ) (l : List ℚ) :
    l.foldl max (max a b) = max a (l.foldl max b) := by
  induction l generalizing b with
  | nil => simp
  | cons y ys ih => simp only [List.foldl_cons, max_assoc, ih]

lemma maxList_cons (x : ℚ) (xs : List ℚ) (h : xs ≠ []) :
    maxList (x :: xs) = max x (maxList xs) := by
  match xs, h with
  | y :: ys, _ =>
      show List.foldl max (max x y) ys = max x (List.foldl max y ys)
      exact foldl_max_assoc x y ys

lemma maxList_mem (l : List ℚ) (h : l ≠ []) : maxList l ∈ l := by
  induction l with
  | nil => simp at h
  | cons x xs ih =>
      by_cases hxs : xs = []
      · subst hxs; simp [maxList]
      · rw [maxList_cons x xs hxs]
        rcases max_choice x (maxList xs) with h1 | h1 <;> rw [h1]
        · exact List.mem_cons_self x xs
        · exact List.mem_cons_of_mem x (ih hxs)

lemma le_maxList (l : List ℚ) (x : ℚ) (h : x ∈ l) : x ≤ maxList l := by
  induction l with
  | nil => simp at h
  | cons y ys ih =>
      by_cases hys : ys = []
      · subst hys; simp at h; simp [h, maxList]
      · rw [maxList_cons y ys hys]
        rcases List.mem_cons.1 h with h1 | h1
        · subst h1; exact le_max_left _ _
        · exact le_trans (ih h1) (le_max_right _ _)

lemma argmaxIdx_lt_length (l : List ℚ) (h : l ≠ []) : argmaxIdx l < l.length := by
  induction l with
  | nil => simp at h
  | cons x xs ih =>
      match xs, ih with
      | [], _ => simp [argmaxIdx]
      | y :: ys, ih =>
          rw [show argmaxIdx (x :: y :: ys) =
            if maxList (y :: ys) ≤ x then 0 else argmaxIdx (y :: ys) + 1 from rfl]
          split
          · simp
          · have := ih (by simp)
            simp only [List.length_cons] at this ⊢
            omega

lemma argmaxIdx_getD (l : List ℚ) (h : l ≠ []) :
    l.getD (argmaxIdx l) 0 = maxList l := by
  induction l with
  | nil => simp at h
  | cons x xs ih =>
      match xs, ih with
      | [], _ => simp [argmaxIdx, maxList]
      | y :: ys, ih =>
          rw [show argmaxIdx (x :: y :: ys) =
            if maxList (y :: ys) ≤ x then 0 else argmaxIdx (y :: ys) + 1 from rfl]
          rw [maxList_cons x (y :: ys) (by simp)]
          split
          · next hle => simp [max_eq_left hle]
          · next hlt =>
              have hx : x ≤ maxList (y :: ys) := le_of_lt (lt_of_not_le hlt)
              rw [max_eq_right hx]
              simpa using ih (by simp)

lemma mem_scoreFilter (V rewards : List ℚ) (GAMMA m : ℚ) (l : List Int) (a : Int) :
    a ∈ scoreFilter V rewards GAMMA m l ↔ a ∈ l ∧ stateScore V rewards GAMMA a = m := by
  induction l with
  | nil => simp [scoreFilter]
  | cons b rest ih =>
      simp only [scoreFilter]
      split
      · next hb =>
          constructor
          · intro hmem
            rcases List.mem_cons.1 hmem with h1 | h1
            · exact ⟨by simp [h1], h1 ▸ hb⟩
            · exact ⟨List.mem_cons_of_mem _ (ih.1 h1).1, (ih.1 h1).2⟩
          · rintro ⟨hmem, hsc⟩
            rcases List.mem_cons.1 hmem with h1 | h1
            · simp [h1]
            · exact List.mem_cons_of_mem _ (ih.2 ⟨h1, hsc⟩)
      · next hb =>
          rw [ih]
          constructor
          · rintro ⟨h1, h2⟩; exact ⟨List.mem_cons_of_mem _ h1, h2⟩
          · rintro ⟨h1, h2⟩
            rcases List.mem_cons.1 h1 with h3 | h3
            · exact absurd (h3 ▸ h2) hb
            · exact ⟨h3, h2⟩

lemma scoreFilter_length_pos (V rewards : List ℚ) (GAMMA : ℚ) (l : List Int)
    (h : l ≠ []) :
    0 < (scoreFilter V rewards GAMMA
          (maxList (l.map (stateScore V rewards GAMMA))) l).length := by
  have hmem : maxList (l.map (stateScore V rewards GAMMA)) ∈
      l.map (stateScore V rewards GAMMA) :=
    maxList_mem _ (by simpa using h)
  rcases List.mem_map.1 hmem with ⟨a, ha, hsc⟩
  have : a ∈ scoreFilter V rewards GAMMA
      (maxList (l.map (stateScore V rewards GAMMA))) l :=
    (mem_scoreFilter _ _ _ _ _ _).2 ⟨ha, hsc⟩
  exact List.length_pos.2 (fun hnil => by simp [hnil] at this)

lemma count_scoreFilter_le (V rewards : List ℚ) (GAMMA m : ℚ) (l : List Int) :
    ∀ a, (scoreFilter V rewards GAMMA m l).count a ≤ l.count a := by
  intro a
  induction l with
  | nil => simp [scoreFilter]
  | cons b rest ih =>
      simp only [scoreFilter]
      split
      · simp only [List.count_cons]
        omega
      · simp only [List.count_cons]
        omega

lemma foldl_set_length {β : Type} (F : Nat → β → β) (d : β) (L : List Nat) (z : List β) :
    (L.foldl (fun l i => l.set i (F i (l.getD i d))) z).length = z.length := by
  induction L generalizing z with
  | nil => rfl
  | cons i rest ih =>
      rw [List.foldl_cons, ih]
      exact List.length_set z i _

lemma foldl_set_range_getD {β : Type} (F : Nat → β → β) (d : β) (n : Nat) (z : List β)
    (j : Nat) :
    ((List.range n).foldl (fun l i => l.set i (F i (l.getD i d))) z).getD j d
      = if j < n ∧ j < z.length then F j (z.getD j d) else z.getD j d := by
  induction n generalizing j with
  | zero => simp
  | succ m ih =>
      rw [List.range_succ, List.foldl_append]
      simp only [List.foldl_cons, List.foldl_nil]
      set A := (List.range m).foldl (fun l i => l.set i (F i (l.getD i d))) z with hA
      have hlen : A.length = z.length := foldl_set_length F d _ z
      have hAm : A.getD m d = if m < m ∧ m < z.length then F m (z.getD m d) else z.getD m d :=
        ih m
      simp only [show ¬(m < m ∧ m < z.length) by omega, if_false] at hAm
      by_cases hjm : j = m
      · subst hjm
        by_cases hjz : j < z.length
        · rw [getD_set_self _ _ _ _ (by omega), hAm]
          simp [hjz]
        · rw [List.getD_eq_getElem?_getD, List.getElem?_set]
          have hA2 : ¬ j < A.length := by omega
          simp only [hA2, if_false, if_pos trivial, Option.getD_none]
          rw [if_neg (by omega)]
          exact (List.getD_eq_default _ _ (by omega)).symm
      · rw [getD_set_ne _ _ _ _ _ (fun hh => hjm hh.symm), ih j]
        have hiff : (j < m + 1 ∧ j < z.length) ↔ (j < m ∧ j < z.length) := by omega
        simp only [hiff]

lemma foldl_addAt_getI (c : ℚ) (l : List Int) (p : List ℚ) (j : Int)
    (hl : ∀ a ∈ l, 0 ≤ a ∧ a < (p.length : Int)) :
    getI 0 (l.foldl (fun q a => addAt q a c) p) j
      = getI 0 p j + ((l.count j : ℚ)) * c := by
  induction l generalizing p with
  | nil => simp
  | cons a rest ih =>
      simp only [List.foldl_cons]
      have hlen : (addAt p a c).length = p.length := length_addAt p a c
      rw [ih (addAt p a c) (by rw [hlen]; exact fun b hb => hl b (List.mem_cons_of_mem _ hb))]
      by_cases hja : a = j
      · subst hja
        rw [getI_addAt_self p a c (hl a (List.mem_cons_self _ _)).1
          (hl a (List.mem_cons_self _ _)).2]
        simp only [List.count_cons_self]
        push_cast
        ring
      · rw [getI_addAt_ne p a j c hja]
        rw [List.count_cons_of_ne (fun hh => hja hh.symm)]

/-! ## Grid position predicates (row `s / L`, column `s % L`) -/

/-- Corner cell of the `L × L` grid, for the row-major state index `s`. -/
def isCorner (s L : Int) : Prop :=
  (s / L = 0 ∨ s / L = L - 1) ∧ (s % L = 0 ∨ s % L = L - 1)

/-- Boundary cell (first/last row or first/last column) of the grid. -/
def isEdge (s L : Int) : Prop :=
  s / L = 0 ∨ s / L = L - 1 ∨ s % L = 0 ∨ s % L = L - 1

lemma up_cond_iff (s L : Int) (h0 : 0 ≤ s) (hL : 0 < L) : (L ≤ s) ↔ ¬ (s / L = 0) := by
  constructor
  · intro h hdiv
    have h1 : 1 ≤ s / L := (Int.le_ediv_iff_mul_le hL).2 (by omega)
    omega
  · intro h
    by_contra hc
    exact h (Int.ediv_eq_zero_of_lt h0 (by omega))

lemma down_cond_iff (s L : Int) (hs : s < L * L) (hL : 0 < L) :
    (s < L ^ 2 - L) ↔ ¬ (s / L = L - 1) := by
  have hub : s / L < L := (Int.ediv_lt_iff_lt_mul hL).2 hs
  constructor
  · intro h hdiv
    have h1 : s / L < L - 1 := (Int.ediv_lt_iff_lt_mul hL).2 (by nlinarith)
    omega
  · intro h
    have h1 : s / L < L - 1 := by omega
    have h2 : s < (L - 1) * L := (Int.ediv_lt_iff_lt_mul hL).1 h1
    nlinarith

/-- C7 (amended to `3 ≤ L`): for odd `L ≥ 3` and `0 ≤ s < L*L`, the clamped
topology has exactly `4` entries, while the masked topology has between `2`
and `4` actions: exactly `2` at corner states, `3` at non-corner edge
states, and `4` at interior states. -/
theorem topology_action_counts (L s : Int) (hodd : Odd L) (hL : 3 ≤ L)
    (hs0 : 0 ≤ s) (hs : s < L * L) :
    (get_possible_actions_for_state s L).length = 4 ∧
    2 ≤ (get_possible_actions s L).length ∧
    (get_possible_actions s L).length ≤ 4 ∧
    (isCorner s L → (get_possible_actions s L).length = 2) ∧
    (isEdge s L ∧ ¬ isCorner s L → (get_possible_actions s L).length = 3) ∧
    (¬ isEdge s L → (get_possible_actions s L).length = 4) := by
  have hL0 : (0:Int) < L := by omega
  have e1 := up_cond_iff s L hs0 hL0
  have e2 := down_cond_iff s L hs hL0
  have hAB : ¬ (s / L = 0 ∧ s / L = L - 1) := by omega
  have hCD : ¬ (s % L = 0 ∧ s % L = L - 1) := by omega
  refine ⟨rfl, ?_⟩
  by_cases hA : s / L = 0 <;> by_cases hB : s / L = L - 1 <;>
    by_cases hC : s % L = 0 <;> by_cases hD : s % L = L - 1 <;>
    (simp only [get_possible_actions, e1, e2, hA, hB, hC, hD, isCorner, isEdge,
       not_true, not_false_iff, if_true, if_false, ite_true, ite_false,
       List.length_append, List.length_cons, List.length_nil, List.length_singleton] <;>
     simp_all <;> omega)

/-- C7 counterexample: `L = 1` is an odd side length and `s = 0` is a state
(indeed a corner cell), yet the masked topology offers `0` actions there,
not at least `2`. -/
theorem topology_count_cex_L1 :
    Odd (1:Int) ∧ (0:Int) ≤ 0 ∧ (0:Int) < 1 * 1 ∧
    get_possible_actions 0 1 = [] ∧
    ¬ 2 ≤ (get_possible_actions 0 1).length := by decide

/-- Witness instantiating `topology_action_counts` at `L = 3`, `s = 0`. -/
theorem topology_action_counts_witness :
    (get_possible_actions_for_state 0 3).length = 4 ∧
    2 ≤ (get_possible_actions 0 3).length ∧
    (get_possible_actions 0 3).length ≤ 4 ∧
    (isCorner 0 3 → (get_possible_actions 0 3).length = 2) ∧
    (isEdge 0 3 ∧ ¬ isCorner 0 3 → (get_possible_actions 0 3).length = 3) ∧
    (¬ isEdge 0 3 → (get_possible_actions 0 3).length = 4) :=
  topology_action_counts 3 0 (by decide) (by omega) (by omega) (by omega)

/-! ## C1: the convergence test of policy_evaluation -/

lemma sweep_go_append (pi : List (List ℚ)) (rewards : List ℚ) (GAMMA : ℚ)
    (l : List Nat) (i : Nat) (p : List ℚ × List ℚ) :
    sweep_go pi rewards GAMMA (l ++ [i]) p
      = ((sweep_go pi rewards GAMMA l p).2,
         (sweep_go pi rewards GAMMA l p).2.set i
           (evalV (pi.getD i []) rewards GAMMA (sweep_go pi rewards GAMMA l p).2)) := by
  induction l generalizing p with
  | nil => rfl
  | cons j rest ih =>
      rcases p with ⟨v, V⟩
      simp only [List.cons_append, sweep_go]
      exact ih _

/-- C1 (amended): the loop of `policy_evaluation` always runs at least one
sweep; after a sweep it exits exactly when the squared norm of `v - V` is at
most `DELTA ^ 2`, where `v` is the snapshot taken inside the `for` loop just
before the final update — so `v` and the returned `V` can differ only at
index `len(V) - 2`, and the test measures only that last single-entry
change, not the full-vector per-sweep change. -/
theorem policy_evaluation_exit_characterisation (pi : List (List ℚ))
    (rewards : List ℚ) (GAMMA DELTA : ℚ) (V : List ℚ) (fuel : Nat)
    (hV : 2 ≤ V.length) :
    (∃ x, (sweep pi rewards GAMMA V).2
        = (sweep pi rewards GAMMA V).1.set (V.length - 2) x) ∧
    (sumSqDiff (sweep pi rewards GAMMA V).1 (sweep pi rewards GAMMA V).2 ≤ DELTA ^ 2 →
      policy_evaluation pi rewards GAMMA DELTA (fuel + 1) V
        = some (sweep pi rewards GAMMA V).2) ∧
    (DELTA ^ 2 < sumSqDiff (sweep pi rewards GAMMA V).1 (sweep pi rewards GAMMA V).2 →
      policy_evaluation pi rewards GAMMA DELTA (fuel + 1) V
        = policy_evaluation pi rewards GAMMA DELTA fuel (sweep pi rewards GAMMA V).2) := by
  have hunf : policy_evaluation pi rewards GAMMA DELTA (fuel + 1) V
      = (if sumSqDiff (sweep pi rewards GAMMA V).1 (sweep pi rewards GAMMA V).2 ≤ DELTA ^ 2
         then some (sweep pi rewards GAMMA V).2
         else policy_evaluation pi rewards GAMMA DELTA fuel (sweep pi rewards GAMMA V).2) := rfl
  refine ⟨?_, ?_, ?_⟩
  · have hrange : List.range (V.length - 1) = List.range (V.length - 2) ++ [V.length - 2] := by
      rw [← List.range_succ]
      congr 1
      omega
    rw [sweep, hrange, sweep_go_append]
    exact ⟨_, rfl⟩
  · intro h
    rw [hunf, if_pos h]
  · intro h
    rw [hunf, if_neg (not_le.2 h)]

/-- C1 counterexample: with `pi = [[1,0,0],[0,1,0],[0,0,0]]`,
`rewards = [5,0,0]`, `GAMMA = 0`, `DELTA = 1`, starting from `V = [0,0,0]`,
the very first sweep changes the full vector from `[0,0,0]` to `[5,0,0]`
(per-sweep Euclidean norm `5 > DELTA`), yet the loop exits after that sweep
and returns `[5,0,0]`, because its test only sees the last entry update. -/
theorem policy_evaluation_cex :
    policy_evaluation [[1,0,0],[0,1,0],[0,0,0]] [5,0,0] 0 1 1 [0,0,0]
      = some [5,0,0] ∧
    (1:ℚ) ^ 2 < sumSqDiff [0,0,0] [5,0,0] := by
  constructor
  · norm_num [policy_evaluation, sweep, sweep_go, evalV, sumSqDiff, List.range_succ]
  · norm_num [sumSqDiff]

/-- Witness instantiating `policy_evaluation_exit_characterisation` at a
concrete input. -/
theorem policy_evaluation_exit_characterisation_witness :
    (∃ x, (sweep [[1,0,0],[0,1,0],[0,0,0]] [5,0,0] 0 [0,0,0]).2
        = (sweep [[1,0,0],[0,1,0],[0,0,0]] [5,0,0] 0 [0,0,0]).1.set 1 x) ∧
    (sumSqDiff (sweep [[1,0,0],[0,1,0],[0,0,0]] [5,0,0] 0 [0,0,0]).1
        (sweep [[1,0,0],[0,1,0],[0,0,0]] [5,0,0] 0 [0,0,0]).2 ≤ (1:ℚ) ^ 2 →
      policy_evaluation [[1,0,0],[0,1,0],[0,0,0]] [5,0,0] 0 1 (0 + 1) [0,0,0]
        = some (sweep [[1,0,0],[0,1,0],[0,0,0]] [5,0,0] 0 [0,0,0]).2) ∧
    ((1:ℚ) ^ 2 < sumSqDiff (sweep [[1,0,0],[0,1,0],[0,0,0]] [5,0,0] 0 [0,0,0]).1
        (sweep [[1,0,0],[0,1,0],[0,0,0]] [5,0,0] 0 [0,0,0]).2 →
      policy_evaluation [[1,0,0],[0,1,0],[0,0,0]] [5,0,0] 0 1 (0 + 1) [0,0,0]
        = policy_evaluation [[1,0,0],[0,1,0],[0,0,0]] [5,0,0] 0 1 0
            (sweep [[1,0,0],[0,1,0],[0,0,0]] [5,0,0] 0 [0,0,0]).2) :=
  policy_evaluation_exit_characterisation [[1,0,0],[0,1,0],[0,0,0]] [5,0,0] 0 1 [0,0,0] 0
    (by norm_num)

/-! ## C2: how get_pi_for_state spreads probability in uniform mode -/

lemma getI_ge {α : Type} (d : α) (l : List α) (i : Int) (h : (l.length : Int) ≤ i) :
    getI d l i = d := by
  induction l generalizing i with
  | nil => simp [getI]
  | cons x xs ih =>
      have h1 : i ≠ 0 := by simp at h; omega
      simp only [getI, if_neg h1]
      exact ih (i - 1) (by simp at h ⊢; omega)

lemma getI_replicate_zero (n : Nat) (j : Int) : getI 0 (List.replicate n (0:ℚ)) j = 0 := by
  induction n generalizing j with
  | zero => simp [getI]
  | succ m ih =>
      rw [List.replicate_succ]
      by_cases h : j = 0
      · simp [getI, h]
      · simp only [getI, if_neg h]
        exact ih (j - 1)

lemma int_sqrt_sq_le (n : Nat) : int_sqrt n * int_sqrt n ≤ n := by
  have h := @Nat.findGreatest_spec 0 (fun k => k * k ≤ n) _ n
    (Nat.zero_le n) (by simp)
  simpa [int_sqrt] using h

lemma gpafs_range (s : Int) (S : Nat) (h0 : 0 ≤ s) (h1 : s + 1 < (S : Int)) :
    ∀ a ∈ get_possible_actions_for_state s (int_sqrt S : Int),
      0 ≤ a ∧ a < (S : Int) := by
  intro a ha
  set g : Int := (int_sqrt S : Int) with hg
  have hg0 : 0 ≤ g := by positivity
  have hgS : g * g ≤ (S : Int) := by
    rw [hg]
    exact_mod_cast int_sqrt_sq_le S
  simp only [get_possible_actions_for_state, List.mem_cons, List.mem_singleton,
    List.not_mem_nil, or_false] at ha
  rcases ha with h | h | h | h
  · split at h
    · subst h; omega
    · subst h; omega
  · split at h
    · subst h; omega
    · next hcond =>
        subst h
        have : s + g < g ^ 2 := by omega
        have hsq : g ^ 2 = g * g := sq g
        omega
  · split at h
    · subst h; omega
    · next hcond =>
        have hs0 : s ≠ 0 := fun hh => hcond (by simp [hh])
        subst h; omega
  · split at h
    · subst h; omega
    · subst h; omega

/-- C2 (amended): in uniform mode (`choose_one = false`) each maximising
entry of the clamped 4-entry candidate list contributes
`1 / len(best_as)` to its target next-state; a next-state therefore
receives probability `(its multiplicity among the maximising entries) /
len(best_as)` — uniform over the maximising list entries, not over the
distinct maximising next-states — and `0` if it achieves no maximum. -/
theorem get_pi_uniform_spreads_by_multiplicity (V rewards : List ℚ) (GAMMA : ℚ)
    (state : Int) (h0 : 0 ≤ state) (h1 : state + 1 < (V.length : Int)) :
    0 < (bestNextStates state V rewards GAMMA).length ∧
    (∀ a : Int, a ∈ bestNextStates state V rewards GAMMA ↔
       a ∈ get_possible_actions_for_state state (int_sqrt V.length : Int) ∧
       stateScore V rewards GAMMA a
         = maxList ((get_possible_actions_for_state state (int_sqrt V.length : Int)).map
             (stateScore V rewards GAMMA))) ∧
    (∀ j : Int, getI 0 (get_pi_for_state state V rewards GAMMA false) j
       = ((bestNextStates state V rewards GAMMA).count j : ℚ)
           * (1 / ((bestNextStates state V rewards GAMMA).length : ℚ))) := by
  refine ⟨?_, ?_, ?_⟩
  · exact scoreFilter_length_pos V rewards GAMMA _ (by simp [get_possible_actions_for_state])
  · intro a
    exact mem_scoreFilter V rewards GAMMA _ _ a
  · intro j
    show getI 0 ((bestNextStates state V rewards GAMMA).foldl
        (fun p a => addAt p a (1 / ((bestNextStates state V rewards GAMMA).length : ℚ)))
        (List.replicate V.length (0:ℚ))) j = _
    rw [foldl_addAt_getI]
    · rw [getI_replicate_zero]; ring
    · intro a ha
      have hmem : a ∈ get_possible_actions_for_state state (int_sqrt V.length : Int) :=
        ((mem_scoreFilter V rewards GAMMA _ _ a).1 ha).1
      simpa using gpafs_range state V.length h0 h1 a hmem

/-- C2 counterexample: for `state = 0` on a `3 × 3` grid with `V = 0`,
`rewards = [0,-1,0,0,0,0,0,0,0]` and `GAMMA = 0`, the clamped candidate
list is `[0, 3, 0, 1]`; states `0` and `3` both achieve the maximal score,
yet the produced row gives state `0` probability `2/3` and state `3`
probability `1/3` — not equal shares over the distinct maximisers. -/
theorem get_pi_uniform_cex :
    get_possible_actions_for_state 0 (int_sqrt (List.replicate 9 (0:ℚ)).length : Int)
      = [0, 3, 0, 1] ∧
    stateScore (List.replicate 9 0) [0,-1,0,0,0,0,0,0,0] 0 0
      = maxList (([0, 3, 0, 1] : List Int).map
          (stateScore (List.replicate 9 0) [0,-1,0,0,0,0,0,0,0] 0)) ∧
    stateScore (List.replicate 9 0) [0,-1,0,0,0,0,0,0,0] 0 3
      = maxList (([0, 3, 0, 1] : List Int).map
          (stateScore (List.replicate 9 0) [0,-1,0,0,0,0,0,0,0] 0)) ∧
    getI 0 (get_pi_for_state 0 (List.replicate 9 0) [0,-1,0,0,0,0,0,0,0] 0 false) 0
      = 2/3 ∧
    getI 0 (get_pi_for_state 0 (List.replicate 9 0) [0,-1,0,0,0,0,0,0,0] 0 false) 3
      = 1/3 ∧
    (2/3 : ℚ) ≠ 1/3 := by
  refine ⟨?_, ?_, ?_, ?_, ?_, by norm_num⟩ <;>
    norm_num [get_pi_for_state, bestNextStates, scoreFilter, get_possible_actions_for_state,
      stateScore, idxQ, maxList, addAt, getI, setI, int_sqrt, Nat.findGreatest,
      List.replicate, max_def]

/-- Witness instantiating `get_pi_uniform_spreads_by_multiplicity` at the
state `0` of a `3 × 3` grid. -/
theorem get_pi_uniform_spreads_by_multiplicity_witness :
    0 < (bestNextStates 0 (List.replicate 9 0) [0,-1,0,0,0,0,0,0,0] 0).length ∧
    (∀ a : Int, a ∈ bestNextStates 0 (List.replicate 9 0) [0,-1,0,0,0,0,0,0,0] 0 ↔
       a ∈ get_possible_actions_for_state 0
         (int_sqrt (List.replicate 9 (0:ℚ)).length : Int) ∧
       stateScore (List.replicate 9 0) [0,-1,0,0,0,0,0,0,0] 0 a
         = maxList ((get_possible_actions_for_state 0
             (int_sqrt (List.replicate 9 (0:ℚ)).length : Int)).map
             (stateScore (List.replicate 9 0) [0,-1,0,0,0,0,0,0,0] 0))) ∧
    (∀ j : Int, getI 0 (get_pi_for_state 0 (List.replicate 9 0)
        [0,-1,0,0,0,0,0,0,0] 0 false) j
       = ((bestNextStates 0 (List.replicate 9 0) [0,-1,0,0,0,0,0,0,0] 0).count j : ℚ)
           * (1 / ((bestNextStates 0 (List.replicate 9 0)
               [0,-1,0,0,0,0,0,0,0] 0).length : ℚ))) :=
  get_pi_uniform_spreads_by_multiplicity (List.replicate 9 0) [0,-1,0,0,0,0,0,0,0] 0 0
    (by norm_num) (by norm_num)

/-! ## C6: policy rows of non-terminal states sum to one -/

lemma foldl_addAt_sum (c : ℚ) (l : List Int) (p : List ℚ)
    (hl : ∀ a ∈ l, 0 ≤ a ∧ a < (p.length : Int)) :
    (l.foldl (fun q a => addAt q a c) p).sum = p.sum + l.length * c := by
  induction l generalizing p with
  | nil => simp
  | cons a rest ih =>
      simp only [List.foldl_cons]
      have ha := hl a (List.mem_cons_self _ _)
      rw [ih (addAt p a c)
        (by rw [length_addAt]; exact fun b hb => hl b (List.mem_cons_of_mem _ hb))]
      rw [sum_addAt p a c ha.1 ha.2]
      simp only [List.length_cons]
      push_cast
      ring

lemma getD_replicate {α : Type} (n s : Nat) (x d : α) (h : s < n) :
    (List.replicate n x).getD s d = x := by
  induction n generalizing s with
  | zero => omega
  | succ m ih =>
      rw [List.replicate_succ]
      cases s with
      | zero => rfl
      | succ t => exact ih t (by omega)

lemma get_policy_from_V_row (V rewards : List ℚ) (GAMMA : ℚ) (c : Bool) (s : Nat)
    (hs : s < V.length) :
    (get_policy_from_V V rewards GAMMA c).getD s []
      = if s < V.length - 1 then get_pi_for_state (s : Int) V rewards GAMMA c
        else List.replicate V.length 0 := by
  have h := foldl_set_range_getD
    (fun i _ => get_pi_for_state (i : Int) V rewards GAMMA c) []
    (V.length - 1) (List.replicate V.length (List.replicate V.length 0)) s
  simp only [List.length_replicate] at h
  rw [get_policy_from_V]
  rw [show ((List.range (V.length - 1)).foldl
      (fun pi state => pi.set state (get_pi_for_state (state : Int) V rewards GAMMA c))
      (List.replicate V.length (List.replicate V.length 0)))
    = ((List.range (V.length - 1)).foldl
      (fun l i => l.set i ((fun i _ => get_pi_for_state (i : Int) V rewards GAMMA c) i
        (l.getD i [])))
      (List.replicate V.length (List.replicate V.length 0))) from rfl]
  rw [h]
  simp only [hs, and_true]
  split
  · rfl
  · exact getD_replicate _ _ _ _ hs

lemma best_single_mem_range (V rewards : List ℚ) (GAMMA : ℚ) (state : Int)
    (h0 : 0 ≤ state) (h1 : state + 1 < (V.length : Int)) :
    0 ≤ (get_possible_actions_for_state state (int_sqrt V.length : Int)).getD
          (argmaxIdx ((get_possible_actions_for_state state
            (int_sqrt V.length : Int)).map (stateScore V rewards GAMMA))) 0 ∧
    (get_possible_actions_for_state state (int_sqrt V.length : Int)).getD
          (argmaxIdx ((get_possible_actions_for_state state
            (int_sqrt V.length : Int)).map (stateScore V rewards GAMMA))) 0
        < (V.length : Int) := by
  set pa := get_possible_actions_for_state state (int_sqrt V.length : Int) with hpa
  have hlen : pa.length = 4 := by rw [hpa]; rfl
  have hidx : argmaxIdx (pa.map (stateScore V rewards GAMMA)) < pa.length := by
    have := argmaxIdx_lt_length (pa.map (stateScore V rewards GAMMA))
      (by simp [hpa, get_possible_actions_for_state])
    simpa using this
  have hmem : pa.getD (argmaxIdx (pa.map (stateScore V rewards GAMMA))) 0 ∈ pa := by
    rw [List.getD_eq_getElem?_getD, List.getElem?_eq_getElem hidx]
    exact List.getElem_mem hidx
  exact gpafs_range state V.length h0 h1 _ hmem

/-- C6: for every non-terminal state `s < len(V) - 1` and both settings of
`choose_one`, the policy row produced by `get_policy_from_V` sums to `1`
exactly (hence certainly to within `1e-9`); moreover in single-choice mode
the row is `1` at exactly one (in-range) state and `0` everywhere else. -/
theorem policy_rows_sum_to_one (V rewards : List ℚ) (GAMMA : ℚ) (choose_one : Bool)
    (s : Nat) (hs : s + 1 < V.length) :
    ((get_policy_from_V V rewards GAMMA choose_one).getD s []).sum = 1 ∧
    (choose_one = true →
      ∃ b : Int, 0 ≤ b ∧ b < (V.length : Int) ∧
        getI 0 ((get_policy_from_V V rewards GAMMA choose_one).getD s []) b = 1 ∧
        ∀ j : Int, j ≠ b →
          getI 0 ((get_policy_from_V V rewards GAMMA choose_one).getD s []) j = 0) := by
  have h0 : (0:Int) ≤ (s : Int) := by positivity
  have h1 : (s : Int) + 1 < (V.length : Int) := by exact_mod_cast hs
  have hrow := get_policy_from_V_row V rewards GAMMA choose_one s (by omega)
  rw [if_pos (by omega)] at hrow
  rw [hrow]
  cases choose_one with
  | false =>
      refine ⟨?_, by simp⟩
      show ((bestNextStates (s:Int) V rewards GAMMA).foldl
        (fun p a => addAt p a (1 / ((bestNextStates (s:Int) V rewards GAMMA).length : ℚ)))
        (List.replicate V.length (0:ℚ))).sum = 1
      rw [foldl_addAt_sum]
      · have hpos : 0 < (bestNextStates (s:Int) V rewards GAMMA).length :=
          scoreFilter_length_pos V rewards GAMMA _ (by simp [get_possible_actions_for_state])
        have hne : ((bestNextStates (s:Int) V rewards GAMMA).length : ℚ) ≠ 0 := by
          exact_mod_cast Nat.pos_iff_ne_zero.1 hpos
        simp only [List.sum_replicate, smul_zero, zero_add]
        field_simp
      · intro a ha
        have hmem : a ∈ get_possible_actions_for_state (s:Int) (int_sqrt V.length : Int) :=
          ((mem_scoreFilter V rewards GAMMA _ _ a).1 ha).1
        simpa using gpafs_range (s:Int) V.length h0 h1 a hmem
  | true =>
      have hb := best_single_mem_range V rewards GAMMA (s:Int) h0 h1
      set b := (get_possible_actions_for_state (s:Int) (int_sqrt V.length : Int)).getD
        (argmaxIdx ((get_possible_actions_for_state (s:Int)
          (int_sqrt V.length : Int)).map (stateScore V rewards GAMMA))) 0 with hbdef
      have hshow : get_pi_for_state (s:Int) V rewards GAMMA true
          = setI (List.replicate V.length (0:ℚ)) b 1 := rfl
      rw [hshow]
      constructor
      · rw [sum_setI _ _ _ hb.1 (by simpa using hb.2), getI_replicate_zero]
        simp
      · intro _
        refine ⟨b, hb.1, hb.2, ?_, ?_⟩
        · exact getI_setI_self _ _ _ _ hb.1 (by simpa using hb.2)
        · intro j hj
          rw [getI_setI_ne _ _ _ _ _ (fun hh => hj hh.symm), getI_replicate_zero]

/-- Witness instantiating `policy_rows_sum_to_one` at a concrete input. -/
theorem policy_rows_sum_to_one_witness :
    ((get_policy_from_V [0,0] [0,0] 0 true).getD 0 []).sum = 1 ∧
    (true = true →
      ∃ b : Int, 0 ≤ b ∧ b < (([0,0] : List ℚ).length : Int) ∧
        getI 0 ((get_policy_from_V [0,0] [0,0] 0 true).getD 0 []) b = 1 ∧
        ∀ j : Int, j ≠ b →
          getI 0 ((get_policy_from_V [0,0] [0,0] 0 true).getD 0 []) j = 0) :=
  policy_rows_sum_to_one [0,0] [0,0] 0 true 0 (by norm_num)

/-! ## C4: shape of the TD(0) update inside solve -/

/-- C4: inside an episode of `solve`, one loop iteration from a non-terminal
state performs exactly the update
`Q[state, action] += ALPHA * (r[next_state] + GAMMA * max(Q[next_state]) - Q[state, action])`
(reward indexed by the target state of the transition), leaving every other
entry of the Q-table, and the table's shape, unchanged. -/
theorem td_update_characterisation (Q : List (List ℚ)) (r : List ℚ)
    (ALPHA GAMMA : ℚ) (state : Int) (action : Nat) (next_state : Int)
    (hs0 : 0 ≤ state) (hs : state < (Q.length : Int))
    (ha : action < (getI [] Q state).length) :
    (getI [] (td_update Q r ALPHA GAMMA state action next_state) state).getD action 0
      = (getI [] Q state).getD action 0
        + ALPHA * (getI 0 r next_state + GAMMA * maxList (getI [] Q next_state)
            - (getI [] Q state).getD action 0) ∧
    (∀ s' : Int, s' ≠ state →
      getI [] (td_update Q r ALPHA GAMMA state action next_state) s' = getI [] Q s') ∧
    (∀ a' : Nat, a' ≠ action →
      (getI [] (td_update Q r ALPHA GAMMA state action next_state) state).getD a' 0
        = (getI [] Q state).getD a' 0) ∧
    (td_update Q r ALPHA GAMMA state action next_state).length = Q.length ∧
    (∀ (GA AL EP : ℚ) (g : Int) (rands : Nat → ℚ) (choices : Nat → Nat)
        (fuel k : Nat) (s : Int) (st : QState) (tr : List (Int × Nat)),
      s ≠ g ^ 2 - 1 →
      episode_go GA AL EP g rands choices (fuel + 1) k s st tr
        = episode_go GA AL EP g rands choices fuel (k + 1)
            (get_next_state s (take_action (rands k) (choices k) s st.Q EP) g)
            { st with Q := (td_update st.Q st.r AL GA s
                (take_action (rands k) (choices k) s st.Q EP)
                (get_next_state s (take_action (rands k) (choices k) s st.Q EP) g)) }
            ((s, take_action (rands k) (choices k) s st.Q EP) :: tr)) := by
  have hQlen : (state : Int) < (Q.length : Int) := hs
  refine ⟨?_, ?_, ?_, length_setI _ _ _, ?_⟩
  · show (getI [] (setI Q state _) state).getD action 0 = _
    rw [getI_setI_self _ _ _ _ hs0 (by simpa using hQlen)]
    rw [getD_set_self _ _ _ _ ha]
  · intro s' hne
    show getI [] (setI Q state _) s' = getI [] Q s'
    exact getI_setI_ne _ _ _ _ _ (fun hh => hne hh.symm)
  · intro a' hne
    show (getI [] (setI Q state _) state).getD a' 0 = _
    rw [getI_setI_self _ _ _ _ hs0 (by simpa using hQlen)]
    exact getD_set_ne _ _ _ _ _ (fun hh => hne hh.symm)
  · intro GA AL EP g rands choices fuel k s st tr hterm
    conv_lhs => rw [episode_go]
    rw [if_neg hterm]

/-- Witness instantiating `td_update_characterisation` at a concrete input. -/
theorem td_update_characterisation_witness :
    (getI [] (td_update [[1,2],[3,4]] [10,20] (1/2) (1/2) 0 1 1) 0).getD 1 0
      = (getI [] ([[1,2],[3,4]] : List (List ℚ)) 0).getD 1 0
        + (1/2) * (getI 0 ([10,20] : List ℚ) 1
            + (1/2) * maxList (getI [] ([[1,2],[3,4]] : List (List ℚ)) 1)
            - (getI [] ([[1,2],[3,4]] : List (List ℚ)) 0).getD 1 0) ∧
    (∀ s' : Int, s' ≠ 0 →
      getI [] (td_update [[1,2],[3,4]] [10,20] (1/2) (1/2) 0 1 1) s'
        = getI [] ([[1,2],[3,4]] : List (List ℚ)) s') ∧
    (∀ a' : Nat, a' ≠ 1 →
      (getI [] (td_update [[1,2],[3,4]] [10,20] (1/2) (1/2) 0 1 1) 0).getD a' 0
        = (getI [] ([[1,2],[3,4]] : List (List ℚ)) 0).getD a' 0) ∧
    (td_update [[1,2],[3,4]] [10,20] (1/2) (1/2) 0 1 1).length
      = ([[1,2],[3,4]] : List (List ℚ)).length ∧
    (∀ (GA AL EP : ℚ) (g : Int) (rands : Nat → ℚ) (choices : Nat → Nat)
        (fuel k : Nat) (s : Int) (st : QState) (tr : List (Int × Nat)),
      s ≠ g ^ 2 - 1 →
      episode_go GA AL EP g rands choices (fuel + 1) k s st tr
        = episode_go GA AL EP g rands choices fuel (k + 1)
            (get_next_state s (take_action (rands k) (choices k) s st.Q EP) g)
            { st with Q := (td_update st.Q st.r AL GA s
                (take_action (rands k) (choices k) s st.Q EP)
                (get_next_state s (take_action (rands k) (choices k) s st.Q EP) g)) }
            ((s, take_action (rands k) (choices k) s st.Q EP) :: tr)) :=
  td_update_characterisation [[1,2],[3,4]] [10,20] (1/2) (1/2) 0 1 1
    (by norm_num) (by norm_num) (by norm_num [getI])

/-! ## C9: the reward remap, and C10: solve leaves the maze untouched -/

/-- C9: `solve` builds its reward vector by flattening the maze and applying
the remap `r[r == -100] = -1000` before any learning: the remap sends every
entry exactly equal to `-100` to `-1000`, leaves all other entries
unchanged, preserves the length, and `solve` definitionally runs its loop on
`remap maze.flatten`. -/
theorem solve_remaps_rewards :
    (∀ (r : List ℚ), (remap r).length = r.length ∧
      ∀ i : Nat, i < r.length →
        ((r.getD i 0 = -100 → (remap r).getD i 0 = -1000) ∧
         (r.getD i 0 ≠ -100 → (remap r).getD i 0 = r.getD i 0))) ∧
    (∀ (maze : List (List ℚ)) (GAMMA ALPHA EPSILON DELTA : ℚ)
        (rands : Nat → ℚ) (choices : Nat → Nat) (N F : Nat),
      solve maze GAMMA ALPHA EPSILON DELTA rands choices N F
        = solve_go GAMMA ALPHA EPSILON DELTA (maze.length : Int) rands choices N F 0
            (List.replicate (maze.length ^ 2) (List.replicate 4 1))
            { maze := maze, r := remap maze.flatten, Q := generate_q maze } []) := by
  constructor
  · intro r
    refine ⟨by simp [remap], ?_⟩
    intro i hi
    have hmap : (remap r).getD i 0 = if r.getD i 0 = -100 then -1000 else r.getD i 0 := by
      rw [List.getD_eq_getElem?_getD r i 0, List.getElem?_eq_getElem hi]
      rw [remap, List.getD_eq_getElem?_getD, List.getElem?_map,
        List.getElem?_eq_getElem hi]
      rfl
    constructor
    · intro h
      rw [hmap, if_pos h]
    · intro h
      rw [hmap, if_neg h]
  · intro maze GAMMA ALPHA EPSILON DELTA rands choices N F
    rfl

/-- Witness instantiating `solve_remaps_rewards` at concrete inputs. -/
theorem solve_remaps_rewards_witness :
    ((([-100, 7] : List ℚ).getD 0 0 = -100 → (remap [-100, 7]).getD 0 0 = -1000) ∧
     (([-100, 7] : List ℚ).getD 0 0 ≠ -100 → (remap [-100, 7]).getD 0 0
        = ([-100, 7] : List ℚ).getD 0 0)) ∧
    solve [[(-1 : ℚ)]] 1 1 1 1 (fun _ => 1) (fun _ => 0) 1 1
      = solve_go 1 1 1 1 (([[(-1 : ℚ)]] : List (List ℚ)).length : Int)
          (fun _ => 1) (fun _ => 0) 1 1 0
          (List.replicate (([[(-1 : ℚ)]] : List (List ℚ)).length ^ 2) (List.replicate 4 1))
          { maze := [[(-1 : ℚ)]], r := remap ([[(-1 : ℚ)]] : List (List ℚ)).flatten,
            Q := generate_q [[(-1 : ℚ)]] } [] :=
  ⟨(solve_remaps_rewards.1 [-100, 7]).2 0 (by norm_num),
   solve_remaps_rewards.2 [[(-1 : ℚ)]] 1 1 1 1 (fun _ => 1) (fun _ => 0) 1 1⟩

lemma episode_go_maze_r (GAMMA ALPHA EPSILON : ℚ) (grid_size : Int)
    (rands : Nat → ℚ) (choices : Nat → Nat) :
    ∀ (fuel k : Nat) (state : Int) (st : QState) (tr : List (Int × Nat))
      (st2 : QState) (tr2 : List (Int × Nat)) (k2 : Nat),
      episode_go GAMMA ALPHA EPSILON grid_size rands choices fuel k state st tr
        = some (st2, tr2, k2) →
      st2.maze = st.maze ∧ st2.r = st.r := by
  intro fuel
  induction fuel with
  | zero =>
      intro k state st tr st2 tr2 k2 h
      rw [episode_go] at h
      split at h
      · simp only [Option.some_inj, Prod.mk.injEq] at h
        rw [← h.1]
        exact ⟨rfl, rfl⟩
      · simp at h
  | succ fuel ih =>
      intro k state st tr st2 tr2 k2 h
      rw [episode_go] at h
      split at h
      · simp only [Option.some_inj, Prod.mk.injEq] at h
        rw [← h.1]
        exact ⟨rfl, rfl⟩
      · dsimp only at h
        have h2 := ih _ _ _ _ _ _ _ h
        exact h2

lemma solve_go_maze_r (GAMMA ALPHA EPSILON DELTA : ℚ) (grid_size : Int)
    (rands : Nat → ℚ) (choices : Nat → Nat) (F : Nat) :
    ∀ (N k : Nat) (Q_old : List (List ℚ)) (st : QState) (tr : List (Int × Nat))
      (st2 : QState) (tr2 : List (Int × Nat)),
      solve_go GAMMA ALPHA EPSILON DELTA grid_size rands choices N F k Q_old st tr
        = some (st2, tr2) →
      st2.maze = st.maze ∧ st2.r = st.r := by
  intro N
  induction N with
  | zero =>
      intro k Q_old st tr st2 tr2 h
      rw [solve_go] at h
      split at h
      · simp only [Option.some_inj, Prod.mk.injEq] at h
        rw [← h.1]
        exact ⟨rfl, rfl⟩
      · simp at h
  | succ N ih =>
      intro k Q_old st tr st2 tr2 h
      rw [solve_go] at h
      split at h
      · simp only [Option.some_inj, Prod.mk.injEq] at h
        rw [← h.1]
        exact ⟨rfl, rfl⟩
      · rcases heq : episode_go GAMMA ALPHA EPSILON grid_size rands choices F k 0 st []
          with _ | ⟨st3, tr3, k3⟩
        · rw [heq] at h; simp at h
        · rw [heq] at h
          have h1 := ih _ _ _ _ _ _ h
          have h2 := episode_go_maze_r GAMMA ALPHA EPSILON grid_size rands choices
            F k 0 st [] st3 tr3 k3 heq
          exact ⟨h1.1.trans h2.1, h1.2.trans h2.2⟩

/-- C10: a completed run of `solve` returns a state whose `maze` field is
the caller's array unchanged and whose reward vector is the remapped fresh
copy of `maze.flatten()`: the `-100 → -1000` remap is applied to the copy
`r` (numpy `.flatten()` copies), and the loop writes only the Q-table. -/
theorem solve_preserves_maze (maze : List (List ℚ)) (GAMMA ALPHA EPSILON DELTA : ℚ)
    (rands : Nat → ℚ) (choices : Nat → Nat) (N F : Nat) (st : QState)
    (tr : List (Int × Nat))
    (h : solve maze GAMMA ALPHA EPSILON DELTA rands choices N F = some (st, tr)) :
    st.maze = maze ∧ st.r = remap maze.flatten := by
  have := solve_go_maze_r GAMMA ALPHA EPSILON DELTA (maze.length : Int) rands choices
    F N 0 (List.replicate (maze.length ^ 2) (List.replicate 4 1))
    { maze := maze, r := remap maze.flatten, Q := generate_q maze } [] st tr h
  exact this

/-- Witness instantiating `solve_preserves_maze` on a concrete run (with a
large `DELTA` the outer loop converges immediately). -/
theorem solve_preserves_maze_witness :
    ({ maze := [[(-1 : ℚ), -1], [-1, -1]],
       r := remap ([[(-1 : ℚ), -1], [-1, -1]] : List (List ℚ)).flatten,
       Q := generate_q [[(-1 : ℚ), -1], [-1, -1]] } : QState).maze
        = [[(-1 : ℚ), -1], [-1, -1]] ∧
    ({ maze := [[(-1 : ℚ), -1], [-1, -1]],
       r := remap ([[(-1 : ℚ), -1], [-1, -1]] : List (List ℚ)).flatten,
       Q := generate_q [[(-1 : ℚ), -1], [-1, -1]] } : QState).r
        = remap ([[(-1 : ℚ), -1], [-1, -1]] : List (List ℚ)).flatten :=
  solve_preserves_maze [[(-1 : ℚ), -1], [-1, -1]] (1/2) (1/2) (1/2) (10 ^ 30)
    (fun _ => 1) (fun _ => 0) 1 1 _ []
    (by norm_num [solve, solve_go, maxAbsDiff, maxList, max_def, generate_q,
      get_impossible_actions, remap, sentinel, List.range_succ, List.replicate])

/-! ## C3: determinism of route extraction from a Q-table -/

lemma take_action_pos_rand (rand : ℚ) (choice : Nat) (state : Int)
    (Q : List (List ℚ)) (h : 0 < rand) :
    take_action rand choice state Q 0 = argmaxIdx (getI [] Q state) := by
  rw [take_action, if_pos h]

lemma get_route_go_stream_independent (Q : List (List ℚ)) (maze : List (List ℚ))
    (r1 r2 : Nat → ℚ) (c1 c2 : Nat → Nat)
    (h1 : ∀ n, 0 < r1 n) (h2 : ∀ n, 0 < r2 n) :
    ∀ (fuel k1 k2 : Nat) (state : Int) (seq : List Int) (tr : List (Int × Nat)),
      get_route_go Q maze r1 c1 fuel k1 state seq tr
        = get_route_go Q maze r2 c2 fuel k2 state seq tr := by
  intro fuel
  induction fuel with
  | zero =>
      intro k1 k2 state seq tr
      rw [get_route_go, get_route_go]
  | succ fuel ih =>
      intro k1 k2 state seq tr
      rw [get_route_go, get_route_go]
      split
      · rfl
      · dsimp only
        rw [take_action_pos_rand _ _ _ _ (h1 k1), take_action_pos_rand _ _ _ _ (h2 k2)]
        exact ih (k1 + 1) (k2 + 1) _ _ _

/-- C3 (amended): route extraction from a Q-table is deterministic provided
every `np.random.uniform()` draw it consumes is strictly positive (an event
of probability one): when each draw exceeds `EPSILON = 0`, every step takes
the greedy `np.argmax(Q[state])` branch, so the returned route does not
depend on the random streams at all.  When a draw equals `0` exactly, the
`rand > 0` test fails and the step instead explores among the valid actions,
so two runs over the same arguments can return different routes. -/
theorem get_route_deterministic_when_rands_positive (Q : List (List ℚ))
    (maze : List (List ℚ)) (start_x start_y : Int) (fuel : Nat)
    (r1 r2 : Nat → ℚ) (c1 c2 : Nat → Nat)
    (h1 : ∀ n, 0 < r1 n) (h2 : ∀ n, 0 < r2 n) :
    get_route Q maze start_x start_y r1 c1 fuel
      = get_route Q maze start_x start_y r2 c2 fuel := by
  rw [get_route, get_route]
  exact get_route_go_stream_independent Q maze r1 r2 c1 c2 h1 h2 fuel 0 0 _ _ _

/-- C3 counterexample: on a wall-free `2 × 2` maze with a fixed converged-
style Q-table and identical arguments `(Q, maze, 0, 0)`, a run whose first
uniform draw is `1` (greedy throughout) returns route `[0, 2, 3]`, while a
run whose first uniform draw is exactly `0` (which fails the `rand > 0`
test and explores) returns route `[0, 1, 3]`: the two calls differ, so
`get_route` is not deterministic over the ambient random state. -/
theorem get_route_cex :
    get_route [[sentinel,5,sentinel,1],[sentinel,7,0,sentinel],
        [3,sentinel,sentinel,7],[0,sentinel,0,sentinel]]
      [[-1,-1],[-1,-1]] 0 0 (fun _ => 1) (fun _ => 0) 5
      = some ([0, 2, 3], [(0, 1), (2, 3)]) ∧
    get_route [[sentinel,5,sentinel,1],[sentinel,7,0,sentinel],
        [3,sentinel,sentinel,7],[0,sentinel,0,sentinel]]
      [[-1,-1],[-1,-1]] 0 0 (fun k => if k = 0 then 0 else 1) (fun _ => 1) 5
      = some ([0, 1, 3], [(0, 3), (1, 1)]) ∧
    ([0, 2, 3] : List Int) ≠ [0, 1, 3] := by
  refine ⟨?_, ?_, by decide⟩ <;>
    norm_num [get_route, get_route_go, take_action, argmaxIdx, maxList, max_def,
      get_next_state, get_possible_actions, getI, int_sqrt, Nat.findGreatest, sentinel]

/-- Witness instantiating `get_route_deterministic_when_rands_positive` at a
concrete input. -/
theorem get_route_deterministic_witness :
    get_route [[(0:ℚ),0,0,0]] [[(-1:ℚ)]] 0 0 (fun _ => 1) (fun _ => 0) 3
      = get_route [[(0:ℚ),0,0,0]] [[(-1:ℚ)]] 0 0 (fun _ => 1/2) (fun _ => 7) 3 :=
  get_route_deterministic_when_rands_positive [[(0:ℚ),0,0,0]] [[(-1:ℚ)]] 0 0 3
    (fun _ => 1) (fun _ => 1/2) (fun _ => 0) (fun _ => 7)
    (fun _ => by norm_num) (fun _ => by norm_num)

/-! ## C8: invalid actions are never selected -/

lemma mem_get_possible_actions (a : Nat) (s g : Int) :
    a ∈ get_possible_actions s g ↔
      ((a = 0 ∧ g ≤ s) ∨ (a = 1 ∧ s < g ^ 2 - g) ∨
       (a = 2 ∧ s % g ≠ 0) ∨ (a = 3 ∧ s % g ≠ g - 1)) := by
  simp only [get_possible_actions, List.mem_append]
  split_ifs <;> simp_all <;> omega

lemma mem_get_impossible_actions (a : Nat) (s g : Int) :
    a ∈ get_impossible_actions s g ↔
      ((a = 0 ∧ s < g) ∨ (a = 1 ∧ g ^ 2 - g ≤ s) ∨
       (a = 2 ∧ s % g = 0) ∨ (a = 3 ∧ s % g = g - 1)) := by
  simp only [get_impossible_actions, List.mem_append]
  split_ifs <;> simp_all <;> omega

lemma poss_lt_four (a : Nat) (s g : Int) (h : a ∈ get_possible_actions s g) : a < 4 := by
  rcases (mem_get_possible_actions a s g).1 h with ⟨rfl, _⟩ | ⟨rfl, _⟩ | ⟨rfl, _⟩ | ⟨rfl, _⟩ <;>
    omega

lemma imposs_lt_four (a : Nat) (s g : Int) (h : a ∈ get_impossible_actions s g) : a < 4 := by
  rcases (mem_get_impossible_actions a s g).1 h with ⟨rfl, _⟩ | ⟨rfl, _⟩ | ⟨rfl, _⟩ | ⟨rfl, _⟩ <;>
    omega

lemma poss_iff_not_imposs (a : Nat) (s g : Int) (ha : a < 4) :
    a ∈ get_possible_actions s g ↔ a ∉ get_impossible_actions s g := by
  rw [mem_get_possible_actions, mem_get_impossible_actions]
  interval_cases a <;> simp <;> omega

lemma poss_nonempty (s g : Int) (hg : 2 ≤ g) (hs0 : 0 ≤ s) (hs : s < g ^ 2) :
    get_possible_actions s g ≠ [] := by
  intro hnil
  by_cases hup : g ≤ s
  · have h := (mem_get_possible_actions 0 s g).2 (Or.inl ⟨rfl, hup⟩)
    rw [hnil] at h
    simp at h
  · have hp : g ^ 2 = g * g := sq g
    have h2g : 2 * g ≤ g * g := by nlinarith
    have hlt : s < g ^ 2 - g := by rw [hp]; omega
    have h := (mem_get_possible_actions 1 s g).2 (Or.inr (Or.inl ⟨rfl, hlt⟩))
    rw [hnil] at h
    simp at h

lemma next_state_in_range (s g : Int) (a : Nat) (hg : 1 ≤ g) (hs0 : 0 ≤ s)
    (hs : s < g ^ 2) (ha : a ∈ get_possible_actions s g) :
    0 ≤ get_next_state s a g ∧ get_next_state s a g < g ^ 2 := by
  rcases (mem_get_possible_actions a s g).1 ha with
    ⟨rfl, h⟩ | ⟨rfl, h⟩ | ⟨rfl, h⟩ | ⟨rfl, h⟩
  · simp only [get_next_state]
    norm_num
    omega
  · simp only [get_next_state]
    norm_num
    omega
  · simp only [get_next_state]
    norm_num
    have hne : s ≠ 0 := fun hh => h (by simp [hh])
    omega
  · simp only [get_next_state]
    norm_num
    refine ⟨by omega, ?_⟩
    by_contra hc
    have hse : s = g ^ 2 - 1 := by omega
    have hmod : (g ^ 2 - 1) % g = g - 1 := by
      have h2 : g ^ 2 - 1 = (g - 1) + (g - 1) * g := by ring
      rw [h2, Int.add_mul_emod_self]
      exact Int.emod_eq_of_lt (by omega) (by omega)
    exact h (hse ▸ hmod)

lemma getD_mod_mem {α : Type} (l : List α) (d : α) (c : Nat) (h : l ≠ []) :
    l.getD (c % l.length) d ∈ l := by
  have hlen : 0 < l.length := List.length_pos.2 h
  have hlt : c % l.length < l.length := Nat.mod_lt c hlen
  rw [List.getD_eq_getElem?_getD, List.getElem?_eq_getElem hlt]
  exact List.getElem_mem hlt

lemma set_out_of_range {α : Type} (l : List α) (i : Nat) (v : α) (h : l.length ≤ i) :
    l.set i v = l := by
  induction l generalizing i with
  | nil => rfl
  | cons x xs ih =>
      cases i with
      | zero => simp at h
      | succ j =>
          simp only [List.set_cons_succ, List.cons.injEq, true_and]
          exact ih j (by simpa using h)

lemma foldl_set_const_length {α : Type} (c : α) (l : List Nat) (z : List α) :
    (l.foldl (fun row a => row.set a c) z).length = z.length := by
  induction l generalizing z with
  | nil => rfl
  | cons a rest ih => simp only [List.foldl_cons, ih, List.length_set]

lemma foldl_set_const_getD {α : Type} (c : α) (l : List Nat) (z : List α) (j : Nat)
    (d : α) :
    (l.foldl (fun row a => row.set a c) z).getD j d
      = if j ∈ l ∧ j < z.length then c else z.getD j d := by
  induction l generalizing z with
  | nil => simp
  | cons a rest ih =>
      simp only [List.foldl_cons]
      rw [ih (z.set a c)]
      simp only [List.length_set]
      by_cases hj : j ∈ rest ∧ j < z.length
      · rw [if_pos hj, if_pos ⟨List.mem_cons_of_mem _ hj.1, hj.2⟩]
      · rw [if_neg hj]
        by_cases hja : j = a
        · subst hja
          by_cases hrange : j < z.length
          · rw [getD_set_self _ _ _ _ hrange, if_pos ⟨List.mem_cons_self _ _, hrange⟩]
          · rw [set_out_of_range _ _ _ (by omega), if_neg (fun hh => hrange hh.2)]
        · rw [getD_set_ne _ _ _ _ _ (fun hh => hja hh.symm)]
          rw [if_neg (fun hh => hj ⟨(List.mem_cons.1 hh.1).resolve_left hja, hh.2⟩)]

/-- Invariant carried through a Q-learning run: the table has `g²` rows of
`4` entries; masked-invalid entries hold exactly the sentinel `-1e24`, and
masked-valid entries are at least `-c`. -/
def QInv (g : Int) (c : ℚ) (Q : List (List ℚ)) : Prop :=
  (Q.length : Int) = g ^ 2 ∧
  (∀ i : Nat, i < Q.length → (Q.getD i []).length = 4) ∧
  (∀ i : Nat, i < Q.length → ∀ a ∈ get_impossible_actions (i : Int) g,
     (Q.getD i []).getD a 0 = sentinel) ∧
  (∀ i : Nat, i < Q.length → ∀ a ∈ get_possible_actions (i : Int) g,
     -c ≤ (Q.getD i []).getD a 0)

lemma QInv_mono (g : Int) (c c' : ℚ) (Q : List (List ℚ)) (h : c ≤ c')
    (hQ : QInv g c Q) : QInv g c' Q := by
  refine ⟨hQ.1, hQ.2.1, hQ.2.2.1, ?_⟩
  intro i hi a ha
  have := hQ.2.2.2 i hi a ha
  linarith

lemma generate_q_row (maze : List (List ℚ)) (i : Nat) (hi : i < maze.length ^ 2) :
    (generate_q maze).getD i []
      = (get_impossible_actions (i : Int) (maze.length : Int)).foldl
          (fun row a => row.set a sentinel) (List.replicate 4 0) := by
  have h := foldl_set_range_getD
    (fun i row => (get_impossible_actions (i : Int) (maze.length : Int)).foldl
      (fun row a => row.set a sentinel) row) []
    (maze.length ^ 2) (List.replicate (maze.length ^ 2) (List.replicate 4 (0:ℚ))) i
  simp only [List.length_replicate] at h
  rw [generate_q]
  rw [show ((List.range (maze.length ^ 2)).foldl
      (fun q i => q.set i ((get_impossible_actions (i : Int) ((maze.length : Nat) : Int)).foldl
        (fun row a => row.set a sentinel) (q.getD i [])))
      (List.replicate (maze.length ^ 2) (List.replicate 4 0)))
    = ((List.range (maze.length ^ 2)).foldl
      (fun l j => l.set j ((fun i row => (get_impossible_actions (i : Int)
          (maze.length : Int)).foldl (fun row a => row.set a sentinel) row) j
        (l.getD j [])))
      (List.replicate (maze.length ^ 2) (List.replicate 4 0))) from rfl]
  rw [h, if_pos ⟨hi, hi⟩]
  rw [getD_replicate _ _ _ _ hi]

lemma generate_q_length (maze : List (List ℚ)) :
    (generate_q maze).length = maze.length ^ 2 := by
  have h := foldl_set_length
    (fun i row => (get_impossible_actions (i : Int) (maze.length : Int)).foldl
      (fun row a => row.set a sentinel) row) ([] : List ℚ)
    (List.range (maze.length ^ 2))
    (List.replicate (maze.length ^ 2) (List.replicate 4 (0:ℚ)))
  rw [generate_q]
  rw [show ((List.range (maze.length ^ 2)).foldl
      (fun q i => q.set i ((get_impossible_actions (i : Int) ((maze.length : Nat) : Int)).foldl
        (fun row a => row.set a sentinel) (q.getD i [])))
      (List.replicate (maze.length ^ 2) (List.replicate 4 0)))
    = ((List.range (maze.length ^ 2)).foldl
      (fun l j => l.set j ((fun i row => (get_impossible_actions (i : Int)
          (maze.length : Int)).foldl (fun row a => row.set a sentinel) row) j
        (l.getD j [])))
      (List.replicate (maze.length ^ 2) (List.replicate 4 0))) from rfl]
  rw [h]
  simp

lemma generate_q_QInv (maze : List (List ℚ)) :
    QInv (maze.length : Int) 0 (generate_q maze) := by
  have hlen := generate_q_length maze
  refine ⟨by rw [hlen]; push_cast; ring, ?_, ?_, ?_⟩
  · intro i hi
    rw [generate_q_row maze i (by rw [← hlen]; exact hi)]
    rw [foldl_set_const_length]
    simp
  · intro i hi a ha
    rw [generate_q_row maze i (by rw [← hlen]; exact hi)]
    rw [foldl_set_const_getD]
    rw [if_pos ⟨ha, by simpa using imposs_lt_four a _ _ ha⟩]
  · intro i hi a ha
    rw [generate_q_row maze i (by rw [← hlen]; exact hi)]
    rw [foldl_set_const_getD]
    have hnot : a ∉ get_impossible_actions (i : Int) (maze.length : Int) :=
      (poss_iff_not_imposs a _ _ (poss_lt_four a _ _ ha)).1 ha
    rw [if_neg (fun hh => hnot hh.1)]
    rw [getD_replicate _ _ _ _ (by simpa using poss_lt_four a _ _ ha)]
    norm_num

lemma int_sqrt_exact (n : Nat) : int_sqrt (n * n) = n := by
  have hle : int_sqrt (n * n) ≤ n := by
    by_contra hc
    have h1 : n < int_sqrt (n * n) := by omega
    have h2 : n * n < int_sqrt (n * n) * int_sqrt (n * n) :=
      Nat.mul_self_lt_mul_self h1
    have h3 := int_sqrt_sq_le (n * n)
    omega
  have hge : n ≤ int_sqrt (n * n) := by
    rcases Nat.eq_zero_or_pos n with h | h
    · omega
    · exact Nat.le_findGreatest (Nat.le_mul_of_pos_left n h) (le_refl (n * n))
  omega

lemma grid_of_QInv (g : Int) (Q : List (List ℚ)) (hg : 0 ≤ g)
    (hlen : (Q.length : Int) = g ^ 2) : (int_sqrt Q.length : Int) = g := by
  obtain ⟨t, rfl⟩ := Int.eq_ofNat_of_zero_le hg
  have h1 : Q.length = t * t := by
    have : ((t : Int)) ^ 2 = ((t * t : Nat) : Int) := by push_cast; ring
    rw [this] at hlen
    exact_mod_cast hlen
  rw [h1, int_sqrt_exact]

lemma getD_mem {α : Type} (l : List α) (i : Nat) (d : α) (h : i < l.length) :
    l.getD i d ∈ l := by
  rw [List.getD_eq_getElem?_getD, List.getElem?_eq_getElem h]
  exact List.getElem_mem h

lemma take_action_valid (g : Int) (c : ℚ) (Q : List (List ℚ)) (rand EPSILON : ℚ)
    (choice : Nat) (state : Int) (hg : 2 ≤ g) (hc0 : 0 ≤ c) (hc : c < 10 ^ 24)
    (hQ : QInv g c Q) (hs0 : 0 ≤ state) (hs : state < g ^ 2) :
    take_action rand choice state Q EPSILON ∈ get_possible_actions state g := by
  obtain ⟨m, rfl⟩ := Int.eq_ofNat_of_zero_le hs0
  have hmQ : m < Q.length := by
    have : ((m : Int)) < (Q.length : Int) := by rw [hQ.1]; exact hs
    exact_mod_cast this
  have hrow : getI [] Q (m : Int) = Q.getD m [] := getI_coe [] Q m
  have hrowlen : (Q.getD m []).length = 4 := hQ.2.1 m hmQ
  rw [take_action]
  split
  · rw [hrow]
    set row := Q.getD m [] with hrowdef
    have hne : row ≠ [] := by
      intro hnil
      rw [hnil] at hrowlen
      simp at hrowlen
    have hidx : argmaxIdx row < 4 := by
      have := argmaxIdx_lt_length row hne
      omega
    have hmax : row.getD (argmaxIdx row) 0 = maxList row := argmaxIdx_getD row hne
    have hposs : get_possible_actions (m : Int) g ≠ [] := poss_nonempty _ g hg hs0 hs
    obtain ⟨a0, ha0⟩ := List.exists_mem_of_ne_nil _ hposs
    have ha0lt : a0 < 4 := poss_lt_four a0 _ _ ha0
    have hval : -c ≤ row.getD a0 0 := hQ.2.2.2 m hmQ a0 ha0
    have hmem0 : row.getD a0 0 ∈ row := getD_mem row a0 0 (by omega)
    have hmaxge : -c ≤ maxList row := le_trans hval (le_maxList row _ hmem0)
    have hsent : sentinel < -c := by
      rw [sentinel]
      linarith
    by_contra hcnt
    have himp : argmaxIdx row ∈ get_impossible_actions (m : Int) g := by
      by_contra hcc
      exact hcnt ((poss_iff_not_imposs _ _ _ hidx).2 hcc)
    have := hQ.2.2.1 m hmQ (argmaxIdx row) himp
    rw [hmax] at this
    linarith
  · have hgrid : (int_sqrt Q.length : Int) = g := grid_of_QInv g Q (by omega) hQ.1
    rw [hgrid]
    exact getD_mod_mem _ _ _ (poss_nonempty _ g hg hs0 hs)

lemma getI_mem_or_default {α : Type} (d : α) (l : List α) (i : Int) :
    getI d l i = d ∨ getI d l i ∈ l := by
  induction l generalizing i with
  | nil => left; rfl
  | cons x xs ih =>
      by_cases h : i = 0
      · right; simp [getI, h]
      · rcases ih (i - 1) with h1 | h1
        · left; simpa [getI, if_neg h] using h1
        · right
          simp only [getI, if_neg h]
          exact List.mem_cons_of_mem _ h1

lemma maxList_row_ge (g : Int) (c : ℚ) (Q : List (List ℚ)) (hg : 2 ≤ g)
    (hQ : QInv g c Q) (s : Int) (hs0 : 0 ≤ s) (hs : s < g ^ 2) :
    -c ≤ maxList (getI [] Q s) := by
  obtain ⟨m, rfl⟩ := Int.eq_ofNat_of_zero_le hs0
  have hmQ : m < Q.length := by
    have : ((m : Int)) < (Q.length : Int) := by rw [hQ.1]; exact hs
    exact_mod_cast this
  rw [getI_coe]
  obtain ⟨a0, ha0⟩ := List.exists_mem_of_ne_nil _ (poss_nonempty (m : Int) g hg hs0 hs)
  have hval : -c ≤ (Q.getD m []).getD a0 0 := hQ.2.2.2 m hmQ a0 ha0
  have ha0lt : a0 < 4 := poss_lt_four a0 _ _ ha0
  have hrowlen : (Q.getD m []).length = 4 := hQ.2.1 m hmQ
  exact le_trans hval (le_maxList _ _ (getD_mem _ a0 0 (by omega)))

lemma QInv_td_update (g : Int) (c : ℚ) (Q : List (List ℚ)) (r : List ℚ)
    (ALPHA GAMMA : ℚ) (state : Int) (action : Nat)
    (hg : 2 ≤ g) (hc0 : 0 ≤ c) (hQ : QInv g c Q)
    (hal0 : 0 ≤ ALPHA) (hal1 : ALPHA ≤ 1) (hga0 : 0 ≤ GAMMA) (hga1 : GAMMA ≤ 1)
    (hr : ∀ i : Int, -1000 ≤ getI 0 r i)
    (hs0 : 0 ≤ state) (hs : state < g ^ 2)
    (ha : action ∈ get_possible_actions state g) :
    QInv g (c + 1000)
      (td_update Q r ALPHA GAMMA state action (get_next_state state action g)) := by
  obtain ⟨m, rfl⟩ := Int.eq_ofNat_of_zero_le hs0
  have hmQ : m < Q.length := by
    have : ((m : Int)) < (Q.length : Int) := by rw [hQ.1]; exact hs
    exact_mod_cast this
  have halt : action < 4 := poss_lt_four action _ _ ha
  have hrowlen : (Q.getD m []).length = 4 := hQ.2.1 m hmQ
  set next := get_next_state (m : Int) action g with hnextdef
  have hnext := next_state_in_range (m : Int) g action (by omega) (by positivity) hs ha
  have hM : -c ≤ maxList (getI [] Q next) := maxList_row_ge g c Q hg hQ next hnext.1 hnext.2
  set M := maxList (getI [] Q next) with hMdef
  set rv := getI 0 r next with hrvdef
  have hrv : -1000 ≤ rv := hr next
  have hrowQ : getI [] Q ((m : Nat) : Int) = Q.getD m [] := getI_coe [] Q m
  set old := (Q.getD m []).getD action 0 with holddef
  have hold : -c ≤ old := hQ.2.2.2 m hmQ action ha
  have hgM : -c ≤ GAMMA * M := by
    rcases le_or_lt 0 M with h | h
    · have h2 : 0 ≤ GAMMA * M := mul_nonneg hga0 h
      linarith
    · have h2 : 1 * M ≤ GAMMA * M := mul_le_mul_of_nonpos_right hga1 (le_of_lt h)
      linarith
  have hnew : -(c + 1000) ≤ old + ALPHA * (rv + GAMMA * M - old) := by
    nlinarith [mul_nonneg (sub_nonneg.2 hal1) (by linarith : (0:ℚ) ≤ old + c),
      mul_nonneg hal0 (by linarith : (0:ℚ) ≤ rv + 1000),
      mul_nonneg hal0 (by linarith : (0:ℚ) ≤ GAMMA * M + c),
      mul_nonneg (sub_nonneg.2 hal1) (by norm_num : (0:ℚ) ≤ 1000)]
  have htd : td_update Q r ALPHA GAMMA (m : Int) action next
      = Q.set m ((Q.getD m []).set action (old + ALPHA * (rv + GAMMA * M - old))) := by
    rw [td_update, setI_coe, hrowQ]
  rw [htd]
  refine ⟨by simpa using hQ.1, ?_, ?_, ?_⟩
  · intro i hi
    simp only [List.length_set] at hi
    by_cases him : i = m
    · subst him
      rw [getD_set_self _ _ _ _ hmQ, List.length_set]
      exact hrowlen
    · rw [getD_set_ne _ _ _ _ _ (fun hh => him hh.symm)]
      exact hQ.2.1 i hi
  · intro i hi a' ha'
    simp only [List.length_set] at hi
    by_cases him : i = m
    · subst him
      rw [getD_set_self _ _ _ _ hmQ]
      have hne : a' ≠ action := by
        intro hh
        subst hh
        exact ((poss_iff_not_imposs a' _ _ (imposs_lt_four a' _ _ ha')).1 ha) ha'
      rw [getD_set_ne _ _ _ _ _ (fun hh => hne hh.symm)]
      exact hQ.2.2.1 _ hi a' ha'
    · rw [getD_set_ne _ _ _ _ _ (fun hh => him hh.symm)]
      exact hQ.2.2.1 i hi a' ha'
  · intro i hi a' ha'
    simp only [List.length_set] at hi
    by_cases him : i = m
    · subst him
      rw [getD_set_self _ _ _ _ hmQ]
      by_cases hact : a' = action
      · subst hact
        rw [getD_set_self _ _ _ _ (by omega)]
        exact hnew
      · rw [getD_set_ne _ _ _ _ _ (fun hh => hact hh.symm)]
        have := hQ.2.2.2 _ hi a' ha'
        linarith
    · rw [getD_set_ne _ _ _ _ _ (fun hh => him hh.symm)]
      have := hQ.2.2.2 i hi a' ha'
      linarith

lemma episode_go_invariant (GAMMA ALPHA EPSILON : ℚ) (g : Int)
    (rands : Nat → ℚ) (choices : Nat → Nat) (hg : 2 ≤ g)
    (hal0 : 0 ≤ ALPHA) (hal1 : ALPHA ≤ 1) (hga0 : 0 ≤ GAMMA) (hga1 : GAMMA ≤ 1) :
    ∀ (fuel k : Nat) (state : Int) (st : QState) (tr : List (Int × Nat)) (c : ℚ)
      (st2 : QState) (tr2 : List (Int × Nat)) (k2 : Nat),
      (∀ i : Int, -1000 ≤ getI 0 st.r i) →
      0 ≤ c → c + 1000 * (fuel : ℚ) < 10 ^ 24 →
      QInv g c st.Q → 0 ≤ state → state < g ^ 2 →
      (∀ p ∈ tr, p.2 ∈ get_possible_actions p.1 g) →
      episode_go GAMMA ALPHA EPSILON g rands choices fuel k state st tr
        = some (st2, tr2, k2) →
      QInv g (c + 1000 * (fuel : ℚ)) st2.Q ∧
      (∀ p ∈ tr2, p.2 ∈ get_possible_actions p.1 g) := by
  intro fuel
  induction fuel with
  | zero =>
      intro k state st tr c st2 tr2 k2 hrb hc0 hcf hQ hs0 hs htr h
      rw [episode_go] at h
      split at h
      · simp only [Option.some_inj, Prod.mk.injEq] at h
        rw [← h.1]
        exact ⟨by simpa using hQ, by rw [← h.2.1]; exact htr⟩
      · simp at h
  | succ fuel ih =>
      intro k state st tr c st2 tr2 k2 hrb hc0 hcf hQ hs0 hs htr h
      rw [episode_go] at h
      split at h
      · simp only [Option.some_inj, Prod.mk.injEq] at h
        rw [← h.1]
        refine ⟨QInv_mono g c _ st.Q ?_ hQ, by rw [← h.2.1]; exact htr⟩
        have : (0:ℚ) ≤ 1000 * ((fuel + 1 : Nat) : ℚ) := by positivity
        linarith
      · dsimp only at h
        set action := take_action (rands k) (choices k) state st.Q EPSILON with hactdef
        set next := get_next_state state action g with hnextdef
        have hfc : ((fuel + 1 : Nat) : ℚ) = (fuel : ℚ) + 1 := by push_cast; ring
        have hc24 : c < 10 ^ 24 := by
          rw [hfc] at hcf
          have : (0:ℚ) ≤ (fuel : ℚ) := by positivity
          nlinarith
        have haction : action ∈ get_possible_actions state g := by
          rw [hactdef]
          exact take_action_valid g c st.Q (rands k) EPSILON (choices k)
            state hg hc0 hc24 hQ hs0 hs
        have hnext := next_state_in_range state g action (by omega) hs0 hs haction
        have hQ2 : QInv g (c + 1000) (td_update st.Q st.r ALPHA GAMMA state action next) := by
          rw [hnextdef]
          exact QInv_td_update g c st.Q st.r ALPHA GAMMA state action
            hg hc0 hQ hal0 hal1 hga0 hga1 hrb hs0 hs haction
        have hres := ih (k + 1) next
          { st with Q := td_update st.Q st.r ALPHA GAMMA state action next }
          ((state, action) :: tr) (c + 1000) st2 tr2 k2
          hrb (by linarith) (by rw [hfc] at hcf; linarith) hQ2 hnext.1 hnext.2
          (by
            intro p hp
            rcases List.mem_cons.1 hp with h1 | h1
            · rw [h1]
              exact haction
            · exact htr p h1)
          h
        have heq : c + 1000 + 1000 * (fuel : ℚ) = c + 1000 * ((fuel + 1 : Nat) : ℚ) := by
          push_cast; ring
        exact ⟨heq ▸ hres.1, hres.2⟩

lemma solve_go_invariant (GAMMA ALPHA EPSILON DELTA : ℚ) (g : Int)
    (rands : Nat → ℚ) (choices : Nat → Nat) (F : Nat) (hg : 2 ≤ g)
    (hal0 : 0 ≤ ALPHA) (hal1 : ALPHA ≤ 1) (hga0 : 0 ≤ GAMMA) (hga1 : GAMMA ≤ 1) :
    ∀ (N k : Nat) (Q_old : List (List ℚ)) (st : QState) (tr : List (Int × Nat)) (c : ℚ)
      (st2 : QState) (tr2 : List (Int × Nat)),
      (∀ i : Int, -1000 ≤ getI 0 st.r i) →
      0 ≤ c → c + 1000 * (F : ℚ) * (N : ℚ) < 10 ^ 24 →
      QInv g c st.Q →
      (∀ p ∈ tr, p.2 ∈ get_possible_actions p.1 g) →
      solve_go GAMMA ALPHA EPSILON DELTA g rands choices N F k Q_old st tr
        = some (st2, tr2) →
      QInv g (c + 1000 * (F : ℚ) * (N : ℚ)) st2.Q ∧
      (∀ p ∈ tr2, p.2 ∈ get_possible_actions p.1 g) := by
  intro N
  induction N with
  | zero =>
      intro k Q_old st tr c st2 tr2 hrb hc0 hcf hQ htr h
      rw [solve_go] at h
      split at h
      · simp only [Option.some_inj, Prod.mk.injEq] at h
        rw [← h.1]
        exact ⟨by simpa using hQ, by rw [← h.2]; exact htr⟩
      · simp at h
  | succ N ih =>
      intro k Q_old st tr c st2 tr2 hrb hc0 hcf hQ htr h
      rw [solve_go] at h
      split at h
      · simp only [Option.some_inj, Prod.mk.injEq] at h
        rw [← h.1]
        refine ⟨QInv_mono g c _ st.Q ?_ hQ, by rw [← h.2]; exact htr⟩
        have h1 : (0:ℚ) ≤ (F : ℚ) := by positivity
        have h2 : (0:ℚ) ≤ ((N + 1 : Nat) : ℚ) := by positivity
        nlinarith
      · rcases heq : episode_go GAMMA ALPHA EPSILON g rands choices F k 0 st []
          with _ | ⟨st3, tr3, k3⟩
        · rw [heq] at h; simp at h
        · rw [heq] at h
          have hNc : ((N + 1 : Nat) : ℚ) = (N : ℚ) + 1 := by push_cast; ring
          have hF0 : (0:ℚ) ≤ (F : ℚ) := by positivity
          have hN0 : (0:ℚ) ≤ (N : ℚ) := by positivity
          have hg2 : (0:Int) < g ^ 2 := by positivity
          have hep := episode_go_invariant GAMMA ALPHA EPSILON g rands choices hg
            hal0 hal1 hga0 hga1 F k 0 st [] c st3 tr3 k3
            hrb hc0 (by rw [hNc] at hcf; nlinarith) hQ le_rfl hg2
            (by intro p hp; simp at hp) heq
          have hr3 : st3.r = st.r :=
            (episode_go_maze_r GAMMA ALPHA EPSILON g rands choices F k 0 st [] st3 tr3 k3
              heq).2
          have hres := ih k3 st.Q st3 (tr ++ tr3) (c + 1000 * (F : ℚ)) st2 tr2
            (by rw [hr3]; exact hrb)
            (by nlinarith)
            (by rw [hNc] at hcf; nlinarith)
            hep.1
            (by
              intro p hp
              rcases List.mem_append.1 hp with h1 | h1
              · exact htr p h1
              · exact hep.2 p h1)
            h
          have heqc : c + 1000 * (F : ℚ) + 1000 * (F : ℚ) * (N : ℚ)
              = c + 1000 * (F : ℚ) * ((N + 1 : Nat) : ℚ) := by
            push_cast; ring
          exact ⟨heqc ▸ hres.1, hres.2⟩

lemma get_route_go_valid (Q maze : List (List ℚ)) (rands : Nat → ℚ)
    (choices : Nat → Nat) (c : ℚ) (hg : 2 ≤ (maze.length : Int)) (hc0 : 0 ≤ c)
    (hc : c < 10 ^ 24) (hQ : QInv (maze.length : Int) c Q) :
    ∀ (fuel k : Nat) (state : Int) (seq : List Int) (tr : List (Int × Nat))
      (res : List Int × List (Int × Nat)),
      0 ≤ state → state < (maze.length : Int) ^ 2 →
      (∀ p ∈ tr, p.2 ∈ get_possible_actions p.1 (maze.length : Int)) →
      get_route_go Q maze rands choices fuel k state seq tr = some res →
      ∀ p ∈ res.2, p.2 ∈ get_possible_actions p.1 (maze.length : Int) := by
  intro fuel
  induction fuel with
  | zero =>
      intro k state seq tr res hs0 hs htr h
      rw [get_route_go] at h
      split at h
      · simp only [Option.some_inj] at h
        rw [← h]
        intro p hp
        exact htr p (List.mem_reverse.1 hp)
      · simp at h
  | succ fuel ih =>
      intro k state seq tr res hs0 hs htr h
      rw [get_route_go] at h
      split at h
      · simp only [Option.some_inj] at h
        rw [← h]
        intro p hp
        exact htr p (List.mem_reverse.1 hp)
      · dsimp only at h
        set action := take_action (rands k) (choices k) state Q 0 with hactdef
        have haction : action ∈ get_possible_actions state (maze.length : Int) := by
          rw [hactdef]
          exact take_action_valid (maze.length : Int) c Q (rands k) 0 (choices k)
            state hg hc0 hc hQ hs0 hs
        have hnext := next_state_in_range state (maze.length : Int) action
          (by omega) hs0 hs haction
        exact ih (k + 1) _ _ _ res hnext.1 hnext.2
          (by
            intro p hp
            rcases List.mem_cons.1 hp with h1 | h1
            · rw [h1]
              exact haction
            · exact htr p h1)
          h

lemma remap_bound (l : List ℚ) (h : ∀ x ∈ l, -1000 ≤ x) :
    ∀ i : Int, -1000 ≤ getI 0 (remap l) i := by
  intro i
  rcases getI_mem_or_default 0 (remap l) i with h1 | h1
  · rw [h1]; norm_num
  · rcases List.mem_map.1 h1 with ⟨y, hy, hyy⟩
    rw [← hyy]
    by_cases hcase : y = -100
    · rw [if_pos hcase]
    · rw [if_neg hcase]
      exact h y hy

/-- C8: the Q-learning engine never selects an out-of-bounds action.
`generate_q` initialises every masked-invalid `(state, action)` entry to the
sentinel `-1e24` and every valid entry to `0`; throughout any completed run
of `solve` (under the spec's hyperparameter ranges, rewards at least
`-1000`, and any step budget below `10^21` updates, so that valid entries
stay strictly above the sentinel) every `(state, action)` pair selected by
`take_action` — by the exploration branch, which draws from the masked
valid set, or by the greedy argmax branch, where the sentinel keeps invalid
entries below every valid entry — is valid for its state; the same holds
for every step of a completed `get_route` walk over any Q-table satisfying
the sentinel invariant `QInv`. -/
theorem invalid_actions_never_selected :
    (∀ (maze : List (List ℚ)) (i a : Nat), i < maze.length ^ 2 → a < 4 →
      (a ∈ get_impossible_actions (i : Int) (maze.length : Int) →
        ((generate_q maze).getD i []).getD a 0 = sentinel) ∧
      (a ∈ get_possible_actions (i : Int) (maze.length : Int) →
        ((generate_q maze).getD i []).getD a 0 = 0)) ∧
    (∀ (maze : List (List ℚ)) (GAMMA ALPHA EPSILON DELTA : ℚ)
        (rands : Nat → ℚ) (choices : Nat → Nat) (N F : Nat) (st : QState)
        (tr : List (Int × Nat)),
      2 ≤ maze.length → 0 ≤ ALPHA → ALPHA ≤ 1 → 0 ≤ GAMMA → GAMMA ≤ 1 →
      (∀ x ∈ maze.flatten, -1000 ≤ x) →
      1000 * (F : ℚ) * (N : ℚ) < 10 ^ 24 →
      solve maze GAMMA ALPHA EPSILON DELTA rands choices N F = some (st, tr) →
      ∀ p ∈ tr, p.2 ∈ get_possible_actions p.1 (maze.length : Int)) ∧
    (∀ (Q maze : List (List ℚ)) (start_x start_y : Int) (rands : Nat → ℚ)
        (choices : Nat → Nat) (fuel : Nat) (c : ℚ)
        (res : List Int × List (Int × Nat)),
      2 ≤ (maze.length : Int) → 0 ≤ c → c < 10 ^ 24 →
      QInv (maze.length : Int) c Q →
      0 ≤ start_x + (maze.length : Int) * start_y →
      start_x + (maze.length : Int) * start_y < (maze.length : Int) ^ 2 →
      get_route Q maze start_x start_y rands choices fuel = some res →
      ∀ p ∈ res.2, p.2 ∈ get_possible_actions p.1 (maze.length : Int)) := by
  refine ⟨?_, ?_, ?_⟩
  · intro maze i a hi ha
    constructor
    · intro hmem
      rw [generate_q_row maze i hi, foldl_set_const_getD]
      rw [if_pos ⟨hmem, by simpa using ha⟩]
    · intro hmem
      rw [generate_q_row maze i hi, foldl_set_const_getD]
      have hnot : a ∉ get_impossible_actions (i : Int) (maze.length : Int) :=
        (poss_iff_not_imposs a _ _ ha).1 hmem
      rw [if_neg (fun hh => hnot hh.1)]
      rw [getD_replicate _ _ _ _ (by simpa using ha)]
  · intro maze GAMMA ALPHA EPSILON DELTA rands choices N F st tr
      hg hal0 hal1 hga0 hga1 hrew hfuel hsolve
    have hgI : 2 ≤ (maze.length : Int) := by exact_mod_cast hg
    have hres := solve_go_invariant GAMMA ALPHA EPSILON DELTA (maze.length : Int)
      rands choices F hgI hal0 hal1 hga0 hga1 N 0
      (List.replicate (maze.length ^ 2) (List.replicate 4 1))
      { maze := maze, r := remap maze.flatten, Q := generate_q maze } [] 0 st tr
      (remap_bound maze.flatten hrew) le_rfl (by linarith)
      (generate_q_QInv maze) (by intro p hp; simp at hp) hsolve
    exact hres.2
  · intro Q maze start_x start_y rands choices fuel c res hg hc0 hc hQ h0 h1 hroute
    rw [get_route] at hroute
    exact get_route_go_valid Q maze rands choices c hg hc0 hc hQ fuel 0 _ _ _ res
      h0 h1 (by intro p hp; simp at hp) hroute

/-- Witness instantiating all three parts of
`invalid_actions_never_selected` at concrete inputs. -/
theorem invalid_actions_never_selected_witness :
    ((0 ∈ get_impossible_actions ((0:Nat) : Int)
        (([[(-1:ℚ),-1],[-1,-1]] : List (List ℚ)).length : Int) →
      ((generate_q [[(-1:ℚ),-1],[-1,-1]]).getD 0 []).getD 0 0 = sentinel) ∧
     (0 ∈ get_possible_actions ((0:Nat) : Int)
        (([[(-1:ℚ),-1],[-1,-1]] : List (List ℚ)).length : Int) →
      ((generate_q [[(-1:ℚ),-1],[-1,-1]]).getD 0 []).getD 0 0 = 0)) ∧
    (∀ p ∈ ([] : List (Int × Nat)),
      p.2 ∈ get_possible_actions p.1
        (([[(-1:ℚ),-1],[-1,-1]] : List (List ℚ)).length : Int)) ∧
    (∀ p ∈ (([0, 2, 3], [((0:Int), (1:Nat)), (2, 3)]) :
        List Int × List (Int × Nat)).2,
      p.2 ∈ get_possible_actions p.1
        (([[(-1:ℚ),-1],[-1,-1]] : List (List ℚ)).length : Int)) := by
  refine ⟨invalid_actions_never_selected.1 [[(-1:ℚ),-1],[-1,-1]] 0 0
      (by norm_num) (by norm_num), ?_, ?_⟩
  · exact invalid_actions_never_selected.2.1 [[(-1:ℚ),-1],[-1,-1]]
      (1/2) (1/2) (1/2) (10 ^ 30) (fun _ => 1) (fun _ => 0) 1 1
      { maze := [[(-1:ℚ),-1],[-1,-1]],
        r := remap ([[(-1:ℚ),-1],[-1,-1]] : List (List ℚ)).flatten,
        Q := generate_q [[(-1:ℚ),-1],[-1,-1]] } []
      (by norm_num) (by norm_num) (by norm_num) (by norm_num) (by norm_num)
      (by intro x hx; simp at hx; subst hx; norm_num)
      (by norm_num)
      (by norm_num [solve, solve_go, maxAbsDiff, maxList, max_def, generate_q,
        get_impossible_actions, remap, sentinel, List.range_succ, List.replicate])
  · exact invalid_actions_never_selected.2.2
      [[sentinel,-1,sentinel,-2],[sentinel,-1,-1,sentinel],
       [-5,sentinel,sentinel,-1],[-1,sentinel,-1,sentinel]]
      [[(-1:ℚ),-1],[-1,-1]] 0 0 (fun _ => 1) (fun _ => 0) 5 10
      ([0, 2, 3], [((0:Int), (1:Nat)), (2, 3)])
      (by norm_num) (by norm_num) (by norm_num)
      (by
        refine ⟨by norm_num, ?_, ?_, ?_⟩
        · intro i hi
          norm_num at hi
          interval_cases i <;> rfl
        · intro i hi a ha
          norm_num at hi
          interval_cases i <;>
            · norm_num [get_impossible_actions] at ha
              rcases ha with h | h <;> subst h <;> rfl
        · intro i hi a ha
          norm_num at hi
          interval_cases i <;>
            · norm_num [get_possible_actions] at ha
              rcases ha with h | h <;> subst h <;> norm_num [sentinel])
      (by norm_num) (by norm_num)
      (by norm_num [get_route, get_route_go, take_action, argmaxIdx, maxList, max_def,
        get_next_state, get_possible_actions, getI, int_sqrt, Nat.findGreatest, sentinel])

/-! ## C5: the terminal state is excluded everywhere -/

lemma sweep_go_length (pi : List (List ℚ)) (rewards : List ℚ) (GAMMA : ℚ) :
    ∀ (l : List Nat) (p : List ℚ × List ℚ),
      (sweep_go pi rewards GAMMA l p).2.length = p.2.length := by
  intro l
  induction l with
  | nil => intro p; rfl
  | cons i rest ih =>
      rintro ⟨v, V⟩
      rw [sweep_go, ih]
      simp

lemma sweep_go_getD_not_mem (pi : List (List ℚ)) (rewards : List ℚ) (GAMMA : ℚ) :
    ∀ (l : List Nat) (p : List ℚ × List ℚ) (idx : Nat), (∀ i ∈ l, i ≠ idx) →
      (sweep_go pi rewards GAMMA l p).2.getD idx 0 = p.2.getD idx 0 := by
  intro l
  induction l with
  | nil => intro p idx _; rfl
  | cons i rest ih =>
      rintro ⟨v, V⟩ idx hne
      rw [sweep_go, ih _ _ (fun j hj => hne j (List.mem_cons_of_mem _ hj))]
      exact getD_set_ne _ _ _ _ _ (hne i (List.mem_cons_self _ _))

lemma policy_evaluation_preserves_terminal (pi : List (List ℚ)) (rewards : List ℚ)
    (GAMMA DELTA : ℚ) :
    ∀ (fuel : Nat) (V V' : List ℚ),
      policy_evaluation pi rewards GAMMA DELTA fuel V = some V' →
      V'.length = V.length ∧ V'.getD (V.length - 1) 0 = V.getD (V.length - 1) 0 := by
  intro fuel
  induction fuel with
  | zero => intro V V' h; simp [policy_evaluation] at h
  | succ fuel ih =>
      intro V V' h
      have hunf : policy_evaluation pi rewards GAMMA DELTA (fuel + 1) V
          = (if sumSqDiff (sweep pi rewards GAMMA V).1 (sweep pi rewards GAMMA V).2
              ≤ DELTA ^ 2
             then some (sweep pi rewards GAMMA V).2
             else policy_evaluation pi rewards GAMMA DELTA fuel
               (sweep pi rewards GAMMA V).2) := rfl
      rw [hunf] at h
      have hlen : (sweep pi rewards GAMMA V).2.length = V.length :=
        sweep_go_length pi rewards GAMMA _ (V, V)
      have hgetD : (sweep pi rewards GAMMA V).2.getD (V.length - 1) 0
          = V.getD (V.length - 1) 0 := by
        apply sweep_go_getD_not_mem
        intro i hi
        have := List.mem_range.1 hi
        omega
      split at h
      · simp only [Option.some_inj] at h
        rw [← h]
        exact ⟨hlen, hgetD⟩
      · have hres := ih _ _ h
        rw [hlen] at hres
        exact ⟨hres.1, hres.2.trans hgetD⟩

lemma episode_go_terminal_row (GAMMA ALPHA EPSILON : ℚ) (g : Int)
    (rands : Nat → ℚ) (choices : Nat → Nat) :
    ∀ (fuel k : Nat) (state : Int) (st : QState) (tr : List (Int × Nat))
      (st2 : QState) (tr2 : List (Int × Nat)) (k2 : Nat),
      episode_go GAMMA ALPHA EPSILON g rands choices fuel k state st tr
        = some (st2, tr2, k2) →
      getI [] st2.Q (g ^ 2 - 1) = getI [] st.Q (g ^ 2 - 1) ∧
      (∀ p ∈ tr2, p ∈ tr ∨ p.1 ≠ g ^ 2 - 1) := by
  intro fuel
  induction fuel with
  | zero =>
      intro k state st tr st2 tr2 k2 h
      rw [episode_go] at h
      split at h
      · simp only [Option.some_inj, Prod.mk.injEq] at h
        rw [← h.1, ← h.2.1]
        exact ⟨rfl, fun p hp => Or.inl hp⟩
      · simp at h
  | succ fuel ih =>
      intro k state st tr st2 tr2 k2 h
      rw [episode_go] at h
      split at h
      · simp only [Option.some_inj, Prod.mk.injEq] at h
        rw [← h.1, ← h.2.1]
        exact ⟨rfl, fun p hp => Or.inl hp⟩
      · next hterm =>
          dsimp only at h
          have hres := ih _ _ _ _ _ _ _ h
          constructor
          · rw [hres.1]
            exact getI_setI_ne _ _ _ _ _ hterm
          · intro p hp
            rcases hres.2 p hp with h1 | h1
            · rcases List.mem_cons.1 h1 with h2 | h2
              · right
                rw [h2]
                exact hterm
              · exact Or.inl h2
            · exact Or.inr h1

lemma solve_go_terminal_row (GAMMA ALPHA EPSILON DELTA : ℚ) (g : Int)
    (rands : Nat → ℚ) (choices : Nat → Nat) (F : Nat) :
    ∀ (N k : Nat) (Q_old : List (List ℚ)) (st : QState) (tr : List (Int × Nat))
      (st2 : QState) (tr2 : List (Int × Nat)),
      solve_go GAMMA ALPHA EPSILON DELTA g rands choices N F k Q_old st tr
        = some (st2, tr2) →
      getI [] st2.Q (g ^ 2 - 1) = getI [] st.Q (g ^ 2 - 1) ∧
      (∀ p ∈ tr2, p ∈ tr ∨ p.1 ≠ g ^ 2 - 1) := by
  intro N
  induction N with
  | zero =>
      intro k Q_old st tr st2 tr2 h
      rw [solve_go] at h
      split at h
      · simp only [Option.some_inj, Prod.mk.injEq] at h
        rw [← h.1, ← h.2]
        exact ⟨rfl, fun p hp => Or.inl hp⟩
      · simp at h
  | succ N ih =>
      intro k Q_old st tr st2 tr2 h
      rw [solve_go] at h
      split at h
      · simp only [Option.some_inj, Prod.mk.injEq] at h
        rw [← h.1, ← h.2]
        exact ⟨rfl, fun p hp => Or.inl hp⟩
      · rcases heq : episode_go GAMMA ALPHA EPSILON g rands choices F k 0 st []
          with _ | ⟨st3, tr3, k3⟩
        · rw [heq] at h; simp at h
        · rw [heq] at h
          have hep := episode_go_terminal_row GAMMA ALPHA EPSILON g rands choices
            F k 0 st [] st3 tr3 k3 heq
          have hres := ih _ _ _ _ _ _ h
          constructor
          · rw [hres.1, hep.1]
          · intro p hp
            rcases hres.2 p hp with h1 | h1
            · rcases List.mem_append.1 h1 with h2 | h2
              · exact Or.inl h2
              · rcases hep.2 p h2 with h3 | h3
                · simp at h3
                · exact Or.inr h3
            · exact Or.inr h1

/-- C5: the terminal state is excluded from all computations.
`get_policy_from_V` never assigns the last row (it stays all zeros);
`policy_evaluation` never updates the entry at the terminal index (it is
unchanged on return); and in any completed run of `solve` (under the spec's
parameter regime) no TD update writes to row `L*L - 1` of the Q-table —
the returned table's terminal row equals the freshly initialised one — and
no selection in the trace starts from the terminal state, because the
episode loop exits on reaching it before any update from it. -/
theorem terminal_state_excluded :
    (∀ (V rewards : List ℚ) (GAMMA : ℚ) (c : Bool), 1 ≤ V.length →
      (get_policy_from_V V rewards GAMMA c).getD (V.length - 1) []
        = List.replicate V.length 0) ∧
    (∀ (pi : List (List ℚ)) (rewards : List ℚ) (GAMMA DELTA : ℚ) (fuel : Nat)
        (V V' : List ℚ),
      policy_evaluation pi rewards GAMMA DELTA fuel V = some V' →
      V'.getD (V.length - 1) 0 = V.getD (V.length - 1) 0) ∧
    (∀ (maze : List (List ℚ)) (GAMMA ALPHA EPSILON DELTA : ℚ)
        (rands : Nat → ℚ) (choices : Nat → Nat) (N F : Nat) (st : QState)
        (tr : List (Int × Nat)),
      2 ≤ maze.length → 0 ≤ ALPHA → ALPHA ≤ 1 → 0 ≤ GAMMA → GAMMA ≤ 1 →
      (∀ x ∈ maze.flatten, -1000 ≤ x) →
      1000 * (F : ℚ) * (N : ℚ) < 10 ^ 24 →
      solve maze GAMMA ALPHA EPSILON DELTA rands choices N F = some (st, tr) →
      getI [] st.Q ((maze.length : Int) ^ 2 - 1)
        = getI [] (generate_q maze) ((maze.length : Int) ^ 2 - 1) ∧
      ∀ p ∈ tr, p.1 ≠ (maze.length : Int) ^ 2 - 1) := by
  refine ⟨?_, ?_, ?_⟩
  · intro V rewards GAMMA c hV
    rw [get_policy_from_V_row V rewards GAMMA c (V.length - 1) (by omega)]
    rw [if_neg (by omega)]
  · intro pi rewards GAMMA DELTA fuel V V' h
    exact (policy_evaluation_preserves_terminal pi rewards GAMMA DELTA fuel V V' h).2
  · intro maze GAMMA ALPHA EPSILON DELTA rands choices N F st tr
      hg hal0 hal1 hga0 hga1 hrew hfuel hsolve
    have hres := solve_go_terminal_row GAMMA ALPHA EPSILON DELTA (maze.length : Int)
      rands choices F N 0 (List.replicate (maze.length ^ 2) (List.replicate 4 1))
      { maze := maze, r := remap maze.flatten, Q := generate_q maze } [] st tr hsolve
    refine ⟨hres.1, ?_⟩
    intro p hp
    rcases hres.2 p hp with h1 | h1
    · simp at h1
    · exact h1

/-- Witness instantiating all three parts of `terminal_state_excluded` at
concrete inputs. -/
theorem terminal_state_excluded_witness :
    (get_policy_from_V [(0:ℚ), 0] [0, 0] 0 false).getD
        (([(0:ℚ), 0] : List ℚ).length - 1) []
      = List.replicate ([(0:ℚ), 0] : List ℚ).length 0 ∧
    ([(5:ℚ), 0, 0].getD (([(0:ℚ), 0, 0] : List ℚ).length - 1) 0
      = ([(0:ℚ), 0, 0] : List ℚ).getD (([(0:ℚ), 0, 0] : List ℚ).length - 1) 0) ∧
    (getI [] ({ maze := [[(-1:ℚ),-1],[-1,-1]],
                r := remap ([[(-1:ℚ),-1],[-1,-1]] : List (List ℚ)).flatten,
                Q := generate_q [[(-1:ℚ),-1],[-1,-1]] } : QState).Q
        ((([[(-1:ℚ),-1],[-1,-1]] : List (List ℚ)).length : Int) ^ 2 - 1)
      = getI [] (generate_q [[(-1:ℚ),-1],[-1,-1]])
        ((([[(-1:ℚ),-1],[-1,-1]] : List (List ℚ)).length : Int) ^ 2 - 1) ∧
     ∀ p ∈ ([] : List (Int × Nat)),
       p.1 ≠ (([[(-1:ℚ),-1],[-1,-1]] : List (List ℚ)).length : Int) ^ 2 - 1) :=
  ⟨terminal_state_excluded.1 [(0:ℚ), 0] [0, 0] 0 false (by norm_num),
   terminal_state_excluded.2.1 [[1,0,0],[0,1,0],[0,0,0]] [5,0,0] 0 1 1
     [(0:ℚ), 0, 0] [(5:ℚ), 0, 0]
     (by norm_num [policy_evaluation, sweep, sweep_go, evalV, sumSqDiff, List.range_succ]),
   terminal_state_excluded.2.2 [[(-1:ℚ),-1],[-1,-1]] (1/2) (1/2) (1/2) (10 ^ 30)
     (fun _ => 1) (fun _ => 0) 1 1
     { maze := [[(-1:ℚ),-1],[-1,-1]],
       r := remap ([[(-1:ℚ),-1],[-1,-1]] : List (List ℚ)).flatten,
       Q := generate_q [[(-1:ℚ),-1],[-1,-1]] } []
     (by norm_num) (by norm_num) (by norm_num) (by norm_num) (by norm_num)
     (by intro x hx; simp at hx; subst hx; norm_num)
     (by norm_num)
     (by norm_num [solve, solve_go, maxAbsDiff, maxList, max_def, generate_q,
       get_impossible_actions, remap, sentinel, List.range_succ, List.replicate])⟩
